import Mathlib

/-!
Verification of the QuickJS NDJSON worker (src/functions/cmd/quickjs-worker/main.c).

The C program is shallowly embedded: every emit function (`send_message`,
`send_error`, `send_response`, `send_log`), the JSON escaping helpers with
their fixed-size-buffer truncation, the base64 encoder of `execute_handler`,
the `atob` guest polyfill, the dispatch loop `process_messages` and the
bundle loader are translated into executable Lean definitions.  Guest-side
JavaScript execution (QuickJS) is represented by explicit outcome records.
Wire strings are modelled as `List Char`.
-/

namespace QjsWorker

/-- Shorthand: the character list of a string literal. -/
def cs (s : String) : List Char := s.toList

/-- Arguments of one `send_message` call: the C function prints
`\x7b"id":"%s","type":"%s","payload":%s\x7d\n` from these three strings. -/
structure Msg where
  type : List Char
  id : List Char
  payload : List Char
deriving DecidableEq, Repr

/-- `send_message` in main.c builds a record from type, id and payload. -/
def send_message (type id payload : List Char) : Msg := ⟨type, id, payload⟩

/-- The exact line `send_message` writes to stdout (printf format string
`\x7b"id":"%s","type":"%s","payload":%s\x7d\n`, arguments spliced unescaped). -/
def Msg.render (m : Msg) : List Char :=
  cs "\x7b\"id\":\"" ++ m.id ++ cs "\",\"type\":\"" ++ m.type
    ++ cs "\",\"payload\":" ++ m.payload ++ cs "\x7d\n"

/-- `snprintf` into a buffer of `size` bytes keeps at most `size - 1` characters. -/
def snprintfTrunc (size : Nat) (l : List Char) : List Char := l.take (size - 1)

/-- `send_error`: payload `\x7b"message":"%s","code":"%s"\x7d` formatted by snprintf
into a 1024-byte buffer; message and code are spliced without escaping. -/
def send_error (id message code : List Char) : Msg :=
  send_message (cs "error") id
    (snprintfTrunc 1024
      (cs "\x7b\"message\":\"" ++ message ++ cs "\",\"code\":\"" ++ code ++ cs "\"\x7d"))

/-- The characters `escape_json_str` (and the body loop of `send_response`)
escape, and the two-character sequences they produce. -/
def escape_pair (c : Char) : Option (List Char) :=
  if c = '"' ∨ c = '\\' then some ['\\', c]
  else if c = '\n' then some ['\\', 'n']
  else if c = '\r' then some ['\\', 'r']
  else none

/-- Loop of `escape_json_str`: `j` tracks the output cursor; the loop runs while
`j < out_size - 1`, and a two-character escape is only written after checking
`j + 2 >= out_size` (otherwise the loop breaks). -/
def escape_json_str_go (out_size : Nat) : List Char → Nat → List Char
  | [], _ => []
  | c :: rest, j =>
    if j < out_size - 1 then
      match escape_pair c with
      | some p => if j + 2 ≥ out_size then [] else p ++ escape_json_str_go out_size rest (j + 2)
      | none => c :: escape_json_str_go out_size rest (j + 1)
    else []

/-- `escape_json_str(in, out_buf, out_size)` from main.c. -/
def escape_json_str (inp : List Char) (out_size : Nat) : List Char :=
  escape_json_str_go out_size inp 0

/-- `send_log`: the message is escaped into a 768-byte buffer, then the payload
`\x7b"level":"%s","message":"%s"\x7d` is formatted into a 1024-byte buffer. -/
def send_log (id level message : List Char) : Msg :=
  send_message (cs "log") id
    (snprintfTrunc 1024
      (cs "\x7b\"level\":\"" ++ level ++ cs "\",\"message\":\""
        ++ escape_json_str message 768 ++ cs "\"\x7d"))

/-- Body-escaping loop of `send_response`: same escape set as `escape_json_str`,
output buffer `escaped_body[16384]`, loop condition `j < sizeof(escaped_body) - 1`,
both characters of an escape written unconditionally once the loop is entered. -/
def resp_escape_go : List Char → Nat → List Char
  | [], _ => []
  | c :: rest, j =>
    if j < 16384 - 1 then
      match escape_pair c with
      | some p => p ++ resp_escape_go rest (j + 2)
      | none => c :: resp_escape_go rest (j + 1)
    else []

/-- Digit-extraction loop with fuel (`n + 1` always suffices). -/
def natDecAux : Nat → Nat → List Char
  | 0, _ => []
  | fuel + 1, n =>
    if n < 10 then [Nat.digitChar n]
    else natDecAux fuel (n / 10) ++ [Nat.digitChar (n % 10)]

/-- Decimal digits of a natural number, as printf `%u` would produce them. -/
def natDec (n : Nat) : List Char := natDecAux (n + 1) n

theorem natDecAux_irrel : ∀ (n f1 f2 : Nat), n < f1 → n < f2 →
    natDecAux f1 n = natDecAux f2 n := by
  intro n
  induction n using Nat.strong_induction_on with
  | _ n ih =>
    intro f1 f2 h1 h2
    match f1, f2 with
    | g1 + 1, g2 + 1 =>
      by_cases hn : n < 10
      · simp [natDecAux, hn]
      · simp only [natDecAux, if_neg hn]
        rw [ih (n / 10) (by omega) g1 g2 (by omega) (by omega)]

/-- The recursive unfolding of `natDec`. -/
theorem natDec_eq (n : Nat) : natDec n =
    if n < 10 then [Nat.digitChar n]
    else natDec (n / 10) ++ [Nat.digitChar (n % 10)] := by
  show natDecAux (n + 1) n = _
  by_cases hn : n < 10
  · simp [natDecAux, hn]
  · simp only [natDecAux, if_neg hn]
    rw [natDecAux_irrel (n / 10) n (n / 10 + 1) (by omega) (by omega)]
    rfl

/-- printf `%d` rendering of the (already 32-bit) int argument. -/
def intToDec (n : Int) : List Char :=
  if n < 0 then '-' :: natDec (-n).toNat else natDec n.toNat

/-- `send_response`: escapes the base64 body, then formats the payload
`\x7b"status":%d,"headers":%s,"body":"%s"\x7d` into a 32768-byte buffer;
`headers_json` is spliced verbatim. -/
def send_response (id : List Char) (status : Int) (headers_json body_base64 : List Char) : Msg :=
  send_message (cs "response") id
    (snprintfTrunc 32768
      (cs "\x7b\"status\":" ++ intToDec status ++ cs ",\"headers\":" ++ headers_json
        ++ cs ",\"body\":\"" ++ resp_escape_go body_base64 0 ++ cs "\"\x7d"))

/-- `send_ready`: payload is the literal `\x7b\x7d`. -/
def send_ready (worker_id : List Char) : Msg :=
  send_message (cs "ready") worker_id (cs "\x7b\x7d")

mutual

/-- JSON values, used to express what "the line parses as one JSON object"
means for the worker's stdout wire format. -/
inductive Json where
  | str (s : List Char)
  | num (n : Int)
  | bool (b : Bool)
  | null
  | arr (elems : JsonList)
  | obj (mems : JsonMembers)

/-- Array elements. -/
inductive JsonList where
  | nil
  | cons (hd : Json) (tl : JsonList)

/-- Object members, in textual order. -/
inductive JsonMembers where
  | nil
  | cons (key : List Char) (val : Json) (tl : JsonMembers)

end

deriving instance DecidableEq for Json

/-- Escaping used by the reference JSON serializer. -/
def serEscChar (c : Char) : List Char :=
  if c = '"' ∨ c = '\\' then ['\\', c]
  else if c = '\n' then ['\\', 'n']
  else if c = '\r' then ['\\', 'r']
  else if c = '\t' then ['\\', 't']
  else [c]

/-- Serialized body of a JSON string (without the surrounding quotes). -/
def serStrBody : List Char → List Char
  | [] => []
  | c :: rest => serEscChar c ++ serStrBody rest

mutual

/-- Compact (whitespace-free) serialization of a JSON value. -/
def serJson : Json → List Char
  | .str s => '"' :: (serStrBody s ++ ['"'])
  | .num n => intToDec n
  | .bool true => cs "true"
  | .bool false => cs "false"
  | .null => cs "null"
  | .arr .nil => cs "[]"
  | .arr (.cons h t) => '[' :: (serElems (.cons h t) ++ [']'])
  | .obj .nil => cs "\x7b\x7d"
  | .obj (.cons k v t) => '\x7b' :: '"' :: (serMembers (.cons k v t) ++ ['\x7d'])
termination_by structural v => v

/-- Elements of a nonempty array, comma separated. -/
def serElems : JsonList → List Char
  | .nil => []
  | .cons h .nil => serJson h
  | .cons h (.cons h' t) => serJson h ++ ',' :: serElems (.cons h' t)
termination_by structural l => l

/-- Members of a nonempty object; the opening quote of the current key has
already been emitted by the caller. -/
def serMembers : JsonMembers → List Char
  | .nil => []
  | .cons k v .nil => serStrBody k ++ '"' :: ':' :: serJson v
  | .cons k v (.cons k' v' t) =>
      serStrBody k ++ '"' :: ':' :: serJson v ++ ',' :: '"' :: serMembers (.cons k' v' t)
termination_by structural m => m

end

/-- A string char the serializer represents losslessly: printable, or one of
the three controls it escapes. -/
def goodStrChar (c : Char) : Bool :=
  (0x20 ≤ c.toNat) || c = '\n' || c = '\r' || c = '\t'

/-- All chars of the string are representable. -/
def goodStr (s : List Char) : Bool := s.all goodStrChar

mutual

/-- Well-formedness for the roundtrip: strings contain no unescapable controls. -/
def wfJson : Json → Bool
  | .str s => goodStr s
  | .num _ => true
  | .bool _ => true
  | .null => true
  | .arr l => wfList l
  | .obj m => wfMembers m
termination_by structural v => v

/-- Well-formedness of array elements. -/
def wfList : JsonList → Bool
  | .nil => true
  | .cons h t => wfJson h && wfList t
termination_by structural l => l

/-- Well-formedness of object members. -/
def wfMembers : JsonMembers → Bool
  | .nil => true
  | .cons k v t => goodStr k && wfJson v && wfMembers t
termination_by structural m => m

end

mutual

/-- Fuel needed to parse a serialized value. -/
def jszJson : Json → Nat
  | .str _ => 1
  | .num _ => 1
  | .bool _ => 1
  | .null => 1
  | .arr l => jszList l + 1
  | .obj m => jszMembers m + 1
termination_by structural v => v

/-- Fuel needed to parse serialized array elements. -/
def jszList : JsonList → Nat
  | .nil => 0
  | .cons h t => max (jszJson h) (jszList t) + 1
termination_by structural l => l

/-- Fuel needed to parse serialized object members. -/
def jszMembers : JsonMembers → Nat
  | .nil => 0
  | .cons _ v t => max (jszJson v) (jszMembers t) + 1
termination_by structural m => m

end

/-- JSON whitespace. -/
def isWsChar (c : Char) : Bool := c = ' ' || c = '\t' || c = '\n' || c = '\r'

/-- Skip insignificant whitespace. -/
def skipWs (l : List Char) : List Char := l.dropWhile isWsChar

/-- Escape sequences accepted inside JSON string literals. -/
def unescChar (c : Char) : Option Char :=
  if c = '"' then some '"'
  else if c = '\\' then some '\\'
  else if c = '/' then some '/'
  else if c = 'n' then some '\n'
  else if c = 'r' then some '\r'
  else if c = 't' then some '\t'
  else if c = 'b' then some (Char.ofNat 0x08)
  else if c = 'f' then some (Char.ofNat 0x0c)
  else none

/-- Parse the body of a JSON string literal (opening quote already consumed);
unescaped control characters are rejected. -/
def parseStringBody : List Char → Option (List Char × List Char)
  | [] => none
  | c :: rest =>
    if c = '"' then some ([], rest)
    else if c = '\\' then
      match rest with
      | [] => none
      | e :: rest2 =>
        match unescChar e with
        | some u => (parseStringBody rest2).map (fun p => (u :: p.1, p.2))
        | none => none
    else if c.toNat < 0x20 then none
    else (parseStringBody rest).map (fun p => (c :: p.1, p.2))

/-- Numeric value of a decimal digit character. -/
def digitVal (c : Char) : Nat := c.toNat - '0'.toNat

/-- Value of a digit string. -/
def digitsToNat (ds : List Char) : Nat := ds.foldl (fun a c => a * 10 + digitVal c) 0

/-- Parse an integer JSON number (optional minus sign and a digit run). -/
def parseNumber (l : List Char) : Option (Json × List Char) :=
  match l with
  | [] => none
  | c :: rest =>
    if c = '-' then
      let p := rest.span (·.isDigit)
      if p.1 = [] then none else some (.num (-(digitsToNat p.1 : Int)), p.2)
    else
      let p := (c :: rest).span (·.isDigit)
      if p.1 = [] then none else some (.num (digitsToNat p.1 : Int), p.2)

/-- Expect a literal run of characters, returning the remainder. -/
def stripLit : List Char → List Char → Option (List Char)
  | [], l => some l
  | _ :: _, [] => none
  | p :: ps, c :: l => if c = p then stripLit ps l else none

mutual

/-- Fuel-indexed JSON value parser. -/
def parseValue : Nat → List Char → Option (Json × List Char)
  | 0, _ => none
  | fuel + 1, l =>
    match skipWs l with
    | [] => none
    | c :: rest =>
      if c = '"' then (parseStringBody rest).map fun p => (Json.str p.1, p.2)
      else if c = '\x7b' then
        match skipWs rest with
        | [] => none
        | c2 :: r2 =>
          if c2 = '\x7d' then some (Json.obj .nil, r2)
          else if c2 = '"' then (parseMembers fuel r2).map fun p => (Json.obj p.1, p.2)
          else none
      else if c = '[' then
        match skipWs rest with
        | [] => none
        | c2 :: r2 =>
          if c2 = ']' then some (Json.arr .nil, r2)
          else (parseElems fuel (c2 :: r2)).map fun p => (Json.arr p.1, p.2)
      else if c = 't' then (stripLit (cs "rue") rest).map fun r => (Json.bool true, r)
      else if c = 'f' then (stripLit (cs "alse") rest).map fun r => (Json.bool false, r)
      else if c = 'n' then (stripLit (cs "ull") rest).map fun r => (Json.null, r)
      else parseNumber (c :: rest)

/-- Parse object members, positioned just after the opening quote of a key. -/
def parseMembers : Nat → List Char → Option (JsonMembers × List Char)
  | 0, _ => none
  | fuel + 1, l =>
    match parseStringBody l with
    | none => none
    | some (k, r1) =>
      match skipWs r1 with
      | [] => none
      | c :: r2 =>
        if c = ':' then
          match parseValue fuel r2 with
          | none => none
          | some (v, r3) =>
            match skipWs r3 with
            | [] => none
            | c2 :: r4 =>
              if c2 = ',' then
                match skipWs r4 with
                | [] => none
                | c3 :: r5 =>
                  if c3 = '"' then
                    (parseMembers fuel r5).map fun p => (JsonMembers.cons k v p.1, p.2)
                  else none
              else if c2 = '\x7d' then some (JsonMembers.cons k v .nil, r4)
              else none
        else none

/-- Parse array elements, positioned at the start of an element. -/
def parseElems : Nat → List Char → Option (JsonList × List Char)
  | 0, _ => none
  | fuel + 1, l =>
    match parseValue fuel l with
    | none => none
    | some (v, r1) =>
      match skipWs r1 with
      | [] => none
      | c :: r2 =>
        if c = ',' then (parseElems fuel r2).map fun p => (JsonList.cons v p.1, p.2)
        else if c = ']' then some (JsonList.cons v .nil, r2)
        else none

end

/-- Top-level keys of a parsed object. -/
def memberKeys : JsonMembers → List (List Char)
  | .nil => []
  | .cons k _ t => k :: memberKeys t

/-- The wire invariant for one stdout line: it is newline-terminated and its
content parses as exactly one JSON object whose top-level keys are
`id`, `type`, `payload`. -/
def isWireRecord (l : List Char) : Bool :=
  match parseValue (l.length + 1) l with
  | some (.obj m, rest) =>
    rest = ['\n'] && decide (memberKeys m = [cs "id", cs "type", cs "payload"])
  | _ => false

/-- The remainder after a serialized number must not begin with a digit. -/
def nonDigitStart (l : List Char) : Bool :=
  match l with
  | [] => true
  | c :: _ => !c.isDigit

theorem skipWs_cons_of_not_ws {c : Char} (l : List Char) (h : isWsChar c = false) :
    skipWs (c :: l) = c :: l := by
  simp [skipWs, List.dropWhile, h]

theorem natDec_ne_nil (n : Nat) : natDec n ≠ [] := by
  rw [natDec_eq]; split <;> simp

theorem digitChar_isDigit {d : Nat} (h : d < 10) : (Nat.digitChar d).isDigit = true := by
  interval_cases d <;> decide

theorem digitVal_digitChar {d : Nat} (h : d < 10) : digitVal (Nat.digitChar d) = d := by
  interval_cases d <;> decide

theorem natDec_digits (n : Nat) : ∀ c ∈ natDec n, c.isDigit = true := by
  induction n using Nat.strong_induction_on with
  | _ n ih =>
    rw [natDec_eq]; split
    · rename_i h
      intro c hc
      simp only [List.mem_singleton] at hc
      subst hc
      exact digitChar_isDigit h
    · rename_i h
      intro c hc
      rcases List.mem_append.1 hc with hc | hc
      · exact ih (n / 10) (Nat.div_lt_self (by omega) (by omega)) c hc
      · simp only [List.mem_singleton] at hc
        subst hc
        exact digitChar_isDigit (Nat.mod_lt _ (by omega))

theorem digitsToNat_natDec (n : Nat) : digitsToNat (natDec n) = n := by
  induction n using Nat.strong_induction_on with
  | _ n ih =>
    rw [natDec_eq]; split
    · rename_i h
      simp [digitsToNat, digitVal_digitChar h]
    · rename_i h
      have hrec := ih (n / 10) (Nat.div_lt_self (by omega) (by omega))
      have hmod : n % 10 < 10 := Nat.mod_lt _ (by omega)
      simp only [digitsToNat, List.foldl_append, List.foldl_cons, List.foldl_nil]
      rw [show (natDec (n / 10)).foldl (fun a c => a * 10 + digitVal c) 0
            = digitsToNat (natDec (n / 10)) from rfl, hrec, digitVal_digitChar hmod]
      omega

theorem isDigit_ne {c : Char} (h : c.isDigit = true) (d : Char) (hd : d.isDigit = false) :
    c ≠ d := by
  intro hc; subst hc; rw [h] at hd; cases hd

theorem isDigit_not_ws {c : Char} (h : c.isDigit = true) : isWsChar c = false := by
  have h1 := isDigit_ne h ' ' (by decide)
  have h2 := isDigit_ne h '\t' (by decide)
  have h3 := isDigit_ne h '\n' (by decide)
  have h4 := isDigit_ne h '\r' (by decide)
  simp [isWsChar, h1, h2, h3, h4]

theorem takeWhile_dropWhile_append {p : Char → Bool} :
    ∀ (l1 l2 : List Char), (∀ c ∈ l1, p c = true) →
      (∀ c, l2.head? = some c → p c = false) →
      (l1 ++ l2).takeWhile p = l1 ∧ (l1 ++ l2).dropWhile p = l2 := by
  intro l1
  induction l1 with
  | nil =>
    intro l2 _ h2
    cases l2 with
    | nil => simp
    | cons c t =>
      have := h2 c rfl
      simp [List.takeWhile, List.dropWhile, this]
  | cons c t ih =>
    intro l2 h1 h2
    have hc : p c = true := h1 c (by simp)
    have hr := ih l2 (fun x hx => h1 x (by simp [hx])) h2
    simp [List.takeWhile, List.dropWhile, hc, hr.1, hr.2]

theorem span_natDec_append (m : Nat) (r : List Char) (hr : nonDigitStart r = true) :
    (natDec m ++ r).span (·.isDigit) = (natDec m, r) := by
  have hhead : ∀ c, r.head? = some c → c.isDigit = false := by
    intro c hc
    cases r with
    | nil => cases hc
    | cons c0 t =>
      simp only [List.head?] at hc
      cases hc
      simpa [nonDigitStart] using hr
  have := takeWhile_dropWhile_append (natDec m) r (natDec_digits m) hhead
  rw [List.span_eq_take_drop, this.1, this.2]

theorem parseNumber_intToDec (n : Int) (r : List Char) (hr : nonDigitStart r = true) :
    parseNumber (intToDec n ++ r) = some (.num n, r) := by
  by_cases hn : n < 0
  · have : intToDec n = '-' :: natDec (-n).toNat := by simp [intToDec, hn]
    rw [this]
    simp only [List.cons_append, parseNumber, if_pos rfl, span_natDec_append _ r hr]
    rw [if_neg (natDec_ne_nil _)]
    simp only [digitsToNat_natDec]
    have hval : (-(((-n).toNat : Nat) : Int)) = n := by omega
    rw [hval]
    simp
  · have hit : intToDec n = natDec n.toNat := by simp [intToDec, hn]
    obtain ⟨c, t, hct⟩ := List.exists_cons_of_ne_nil (natDec_ne_nil n.toNat)
    have hcd : c.isDigit = true := natDec_digits n.toNat c (by rw [hct]; simp)
    rw [hit, hct]
    simp only [List.cons_append, parseNumber]
    rw [if_neg (isDigit_ne hcd '-' (by decide))]
    have hspan : ((c :: t) ++ r).span (·.isDigit) = (c :: t, r) := by
      rw [← hct, span_natDec_append _ r hr]
    simp only [← List.cons_append, hspan]
    rw [if_neg (by simp)]
    rw [show digitsToNat (c :: t) = digitsToNat (natDec n.toNat) by rw [hct]]
    rw [digitsToNat_natDec]
    have hval : ((n.toNat : Nat) : Int) = n := by omega
    rw [hval]

theorem psb_quote (r : List Char) : parseStringBody ('"' :: r) = some ([], r) := by
  conv_lhs => rw [parseStringBody.eq_def]
  simp

theorem psb_escape {e u : Char} (r : List Char) (he : unescChar e = some u) :
    parseStringBody ('\\' :: e :: r) = (parseStringBody r).map fun p => (u :: p.1, p.2) := by
  conv_lhs => rw [parseStringBody.eq_def]
  simp [he]

theorem psb_plain {c : Char} (r : List Char) (h1 : c ≠ '"') (h2 : c ≠ '\\')
    (h3 : ¬ c.toNat < 0x20) :
    parseStringBody (c :: r) = (parseStringBody r).map fun p => (c :: p.1, p.2) := by
  conv_lhs => rw [parseStringBody.eq_def]
  simp [h1, h2, h3]

theorem parseStringBody_ser (s : List Char) (r : List Char) (h : goodStr s = true) :
    parseStringBody (serStrBody s ++ '"' :: r) = some (s, r) := by
  induction s with
  | nil => simpa [serStrBody] using psb_quote r
  | cons c t ih =>
    have hgood : goodStrChar c = true ∧ goodStr t = true := by
      simpa [goodStr] using h
    have iht := ih hgood.2
    by_cases h1 : c = '"'
    · subst h1
      have : serEscChar '"' = ['\\', '"'] := by simp [serEscChar]
      simp only [serStrBody, this, List.cons_append, List.nil_append]
      rw [@psb_escape '"' '"' _ (by simp [unescChar]), iht]
      rfl
    · by_cases h2 : c = '\\'
      · subst h2
        have : serEscChar '\\' = ['\\', '\\'] := by simp [serEscChar]
        simp only [serStrBody, this, List.cons_append, List.nil_append]
        rw [@psb_escape '\\' '\\' _ (by simp [unescChar]), iht]
        rfl
      · by_cases h3 : c = '\n'
        · subst h3
          have : serEscChar '\n' = ['\\', 'n'] := by simp [serEscChar]
          simp only [serStrBody, this, List.cons_append, List.nil_append]
          rw [@psb_escape 'n' '\n' _ (by simp [unescChar]), iht]
          rfl
        · by_cases h4 : c = '\r'
          · subst h4
            have : serEscChar '\r' = ['\\', 'r'] := by simp [serEscChar]
            simp only [serStrBody, this, List.cons_append, List.nil_append]
            rw [@psb_escape 'r' '\r' _ (by simp [unescChar]), iht]
            rfl
          · by_cases h5 : c = '\t'
            · subst h5
              have : serEscChar '\t' = ['\\', 't'] := by simp [serEscChar]
              simp only [serStrBody, this, List.cons_append, List.nil_append]
              rw [@psb_escape 't' '\t' _ (by simp [unescChar]), iht]
              rfl
            · have hge : 0x20 ≤ c.toNat := by
                have := hgood.1
                simp [goodStrChar, h3, h4, h5] at this
                exact this
              have hesc : serEscChar c = [c] := by
                simp [serEscChar, h1, h2, h3, h4, h5]
              simp only [serStrBody, hesc, List.cons_append, List.nil_append,
                List.singleton_append]
              rw [psb_plain _ h1 h2 (Nat.not_lt.2 hge), iht]
              rfl

theorem intToDec_head (n : Int) :
    ∃ c t, intToDec n = c :: t ∧ (c = '-' ∨ c.isDigit = true) := by
  by_cases hn : n < 0
  · exact ⟨'-', natDec (-n).toNat, by simp [intToDec, hn], Or.inl rfl⟩
  · obtain ⟨c, t, hct⟩ := List.exists_cons_of_ne_nil (natDec_ne_nil n.toNat)
    refine ⟨c, t, by simp [intToDec, hn, hct], Or.inr ?_⟩
    exact natDec_digits n.toNat c (by rw [hct]; simp)

/-- The first character of a serialized value: never whitespace, never a
closing bracket, and identifies the branch the parser takes. -/
theorem serJson_head (v : Json) :
    ∃ c t, serJson v = c :: t ∧ isWsChar c = false ∧ c ≠ ']' ∧ c ≠ ',' := by
  cases v with
  | str s => exact ⟨'"', _, rfl, by decide, by decide, by decide⟩
  | num n =>
    obtain ⟨c, t, hct, hc⟩ := intToDec_head n
    refine ⟨c, t, by simp [serJson, hct], ?_, ?_, ?_⟩
    · rcases hc with rfl | hd
      · decide
      · exact isDigit_not_ws hd
    · rcases hc with rfl | hd
      · decide
      · exact isDigit_ne hd ']' (by decide)
    · rcases hc with rfl | hd
      · decide
      · exact isDigit_ne hd ',' (by decide)
  | bool b => cases b with
    | true => exact ⟨'t', cs "rue", by simp [serJson, cs], by decide, by decide, by decide⟩
    | false => exact ⟨'f', cs "alse", by simp [serJson, cs], by decide, by decide, by decide⟩
  | null => exact ⟨'n', cs "ull", by simp [serJson, cs], by decide, by decide, by decide⟩
  | arr l => cases l with
    | nil => exact ⟨'[', [']'], by simp [serJson, cs], by decide, by decide, by decide⟩
    | cons h t =>
      exact ⟨'[', serElems (.cons h t) ++ [']'], by simp [serJson], by decide, by decide,
        by decide⟩
  | obj m => cases m with
    | nil => exact ⟨'\x7b', ['\x7d'], by simp [serJson, cs], by decide, by decide, by decide⟩
    | cons k v t =>
      exact ⟨'\x7b', '"' :: (serMembers (.cons k v t) ++ ['\x7d']), by simp [serJson],
        by decide, by decide, by decide⟩

theorem serElems_cons_decomp (h : Json) (t : JsonList) :
    ∃ tl, serElems (.cons h t) = serJson h ++ tl := by
  cases t with
  | nil => exact ⟨[], by simp [serElems]⟩
  | cons h' t' => exact ⟨_, rfl⟩

theorem jszJson_pos (v : Json) : 1 ≤ jszJson v := by
  cases v <;> simp [jszJson]

theorem jszList_pos (h : Json) (t : JsonList) : 1 ≤ jszList (.cons h t) := by
  simp [jszList]

theorem jszMembers_pos (k : List Char) (v : Json) (t : JsonMembers) :
    1 ≤ jszMembers (.cons k v t) := by
  simp [jszMembers]

theorem parseValue_cons (fuel : Nat) {c : Char} (rest : List Char) (hc : isWsChar c = false) :
    parseValue (fuel + 1) (c :: rest) =
      if c = '"' then (parseStringBody rest).map fun p => (Json.str p.1, p.2)
      else if c = '\x7b' then
        match skipWs rest with
        | [] => none
        | c2 :: r2 =>
          if c2 = '\x7d' then some (Json.obj .nil, r2)
          else if c2 = '"' then (parseMembers fuel r2).map fun p => (Json.obj p.1, p.2)
          else none
      else if c = '[' then
        match skipWs rest with
        | [] => none
        | c2 :: r2 =>
          if c2 = ']' then some (Json.arr .nil, r2)
          else (parseElems fuel (c2 :: r2)).map fun p => (Json.arr p.1, p.2)
      else if c = 't' then (stripLit (cs "rue") rest).map fun r => (Json.bool true, r)
      else if c = 'f' then (stripLit (cs "alse") rest).map fun r => (Json.bool false, r)
      else if c = 'n' then (stripLit (cs "ull") rest).map fun r => (Json.null, r)
      else parseNumber (c :: rest) := by
  conv_lhs => rw [parseValue.eq_2]
  rw [skipWs_cons_of_not_ws rest hc]

theorem parseMembers_last (fuel : Nat) {l k : List Char} {v : Json} {r2 r4 : List Char}
    (hk : parseStringBody l = some (k, ':' :: r2))
    (hv : parseValue fuel r2 = some (v, '\x7d' :: r4)) :
    parseMembers (fuel + 1) l = some (.cons k v .nil, r4) := by
  conv_lhs => rw [parseMembers.eq_2]
  have s1 : skipWs (':' :: r2) = ':' :: r2 := @skipWs_cons_of_not_ws ':' r2 (by decide)
  have s2 : skipWs ('\x7d' :: r4) = '\x7d' :: r4 :=
    @skipWs_cons_of_not_ws '\x7d' r4 (by decide)
  simp [hk, s1, hv, s2]

theorem parseMembers_cons_step (fuel : Nat) {l k : List Char} {v : Json}
    {r2 r5 : List Char} {m' : JsonMembers} {r' : List Char}
    (hk : parseStringBody l = some (k, ':' :: r2))
    (hv : parseValue fuel r2 = some (v, ',' :: '"' :: r5))
    (hm : parseMembers fuel r5 = some (m', r')) :
    parseMembers (fuel + 1) l = some (.cons k v m', r') := by
  conv_lhs => rw [parseMembers.eq_2]
  have s1 : skipWs (':' :: r2) = ':' :: r2 := @skipWs_cons_of_not_ws ':' r2 (by decide)
  have s2 : skipWs (',' :: '"' :: r5) = ',' :: '"' :: r5 :=
    @skipWs_cons_of_not_ws ',' ('"' :: r5) (by decide)
  have s3 : skipWs ('"' :: r5) = '"' :: r5 := @skipWs_cons_of_not_ws '"' r5 (by decide)
  simp [hk, s1, hv, s2, s3, hm]

theorem parseElems_last (fuel : Nat) {l : List Char} {v : Json} {r2 : List Char}
    (hv : parseValue fuel l = some (v, ']' :: r2)) :
    parseElems (fuel + 1) l = some (.cons v .nil, r2) := by
  conv_lhs => rw [parseElems.eq_2]
  have s1 : skipWs (']' :: r2) = ']' :: r2 := @skipWs_cons_of_not_ws ']' r2 (by decide)
  simp [hv, s1]

theorem parseElems_cons_step (fuel : Nat) {l : List Char} {v : Json} {r2 : List Char}
    {l' : JsonList} {r' : List Char}
    (hv : parseValue fuel l = some (v, ',' :: r2))
    (he : parseElems fuel r2 = some (l', r')) :
    parseElems (fuel + 1) l = some (.cons v l', r') := by
  conv_lhs => rw [parseElems.eq_2]
  have s1 : skipWs (',' :: r2) = ',' :: r2 := @skipWs_cons_of_not_ws ',' r2 (by decide)
  simp [hv, s1, he]

theorem pv_str (fuel : Nat) (rest : List Char) :
    parseValue (fuel + 1) ('"' :: rest)
      = (parseStringBody rest).map fun p => (Json.str p.1, p.2) := by
  rw [parseValue_cons fuel rest (by decide)]
  simp

theorem pv_obj_nil (fuel : Nat) {rest r2 : List Char} (h : skipWs rest = '\x7d' :: r2) :
    parseValue (fuel + 1) ('\x7b' :: rest) = some (Json.obj .nil, r2) := by
  rw [parseValue_cons fuel rest (by decide)]
  simp [h]

theorem pv_obj_cons (fuel : Nat) {rest r2 : List Char} (h : skipWs rest = '"' :: r2) :
    parseValue (fuel + 1) ('\x7b' :: rest)
      = (parseMembers fuel r2).map fun p => (Json.obj p.1, p.2) := by
  rw [parseValue_cons fuel rest (by decide)]
  simp [h]

theorem pv_arr_nil (fuel : Nat) {rest r2 : List Char} (h : skipWs rest = ']' :: r2) :
    parseValue (fuel + 1) ('[' :: rest) = some (Json.arr .nil, r2) := by
  rw [parseValue_cons fuel rest (by decide)]
  simp [h]

theorem pv_arr_cons (fuel : Nat) {rest : List Char} {c0 : Char} {r0 : List Char}
    (h : skipWs rest = c0 :: r0) (hne : c0 ≠ ']') :
    parseValue (fuel + 1) ('[' :: rest)
      = (parseElems fuel (c0 :: r0)).map fun p => (Json.arr p.1, p.2) := by
  rw [parseValue_cons fuel rest (by decide)]
  simp [h, hne]

theorem pv_true (fuel : Nat) (rest : List Char) :
    parseValue (fuel + 1) ('t' :: rest)
      = (stripLit (cs "rue") rest).map fun r => (Json.bool true, r) := by
  rw [parseValue_cons fuel rest (by decide)]
  simp

theorem pv_false (fuel : Nat) (rest : List Char) :
    parseValue (fuel + 1) ('f' :: rest)
      = (stripLit (cs "alse") rest).map fun r => (Json.bool false, r) := by
  rw [parseValue_cons fuel rest (by decide)]
  simp

theorem pv_null (fuel : Nat) (rest : List Char) :
    parseValue (fuel + 1) ('n' :: rest)
      = (stripLit (cs "ull") rest).map fun r => (Json.null, r) := by
  rw [parseValue_cons fuel rest (by decide)]
  simp

theorem pv_other (fuel : Nat) {c : Char} (rest : List Char) (hws : isWsChar c = false)
    (h1 : c ≠ '"') (h2 : c ≠ '\x7b') (h3 : c ≠ '[') (h4 : c ≠ 't') (h5 : c ≠ 'f')
    (h6 : c ≠ 'n') :
    parseValue (fuel + 1) (c :: rest) = parseNumber (c :: rest) := by
  rw [parseValue_cons fuel rest hws]
  simp [h1, h2, h3, h4, h5, h6]

/-- Roundtrip: the parser recovers every well-formed serialized value, leaving
the remainder untouched. -/
theorem parse_ser_roundtrip (fuel : Nat) :
    (∀ v r, jszJson v ≤ fuel → wfJson v = true → nonDigitStart r = true →
      parseValue fuel (serJson v ++ r) = some (v, r))
  ∧ (∀ k v m r, jszMembers (.cons k v m) ≤ fuel → wfMembers (.cons k v m) = true →
      parseMembers fuel (serMembers (.cons k v m) ++ '\x7d' :: r) = some (.cons k v m, r))
  ∧ (∀ h t r, jszList (.cons h t) ≤ fuel → wfList (.cons h t) = true →
      parseElems fuel (serElems (.cons h t) ++ ']' :: r) = some (.cons h t, r)) := by
  induction fuel with
  | zero =>
    refine ⟨fun v r hsz _ _ => absurd hsz ?_, fun k v m r hsz _ => absurd hsz ?_,
      fun h t r hsz _ => absurd hsz ?_⟩
    · have := jszJson_pos v; omega
    · have := jszMembers_pos k v m; omega
    · have := jszList_pos h t; omega
  | succ fuel ih =>
    obtain ⟨ihV, ihM, ihE⟩ := ih
    refine ⟨?_, ?_, ?_⟩
    · intro v r hsz hwf hr
      cases v with
      | str s =>
        have hgood : goodStr s = true := by simpa [wfJson] using hwf
        have hser : serJson (.str s) ++ r = '"' :: (serStrBody s ++ '"' :: r) := by
          simp [serJson]
        rw [hser, pv_str, parseStringBody_ser s r hgood]
        rfl
      | num n =>
        obtain ⟨c, t, hct, hc⟩ := intToDec_head n
        have hnotws : isWsChar c = false := by
          rcases hc with rfl | hd
          · decide
          · exact isDigit_not_ws hd
        have hne : c ≠ '"' ∧ c ≠ '\x7b' ∧ c ≠ '[' ∧ c ≠ 't' ∧ c ≠ 'f' ∧ c ≠ 'n' := by
          rcases hc with rfl | hd
          · exact ⟨by decide, by decide, by decide, by decide, by decide, by decide⟩
          · exact ⟨isDigit_ne hd _ (by decide), isDigit_ne hd _ (by decide),
              isDigit_ne hd _ (by decide), isDigit_ne hd _ (by decide),
              isDigit_ne hd _ (by decide), isDigit_ne hd _ (by decide)⟩
        have hser : serJson (.num n) ++ r = c :: (t ++ r) := by simp [serJson, hct]
        rw [hser, pv_other fuel _ hnotws hne.1 hne.2.1 hne.2.2.1 hne.2.2.2.1
          hne.2.2.2.2.1 hne.2.2.2.2.2]
        rw [show c :: (t ++ r) = intToDec n ++ r by rw [hct]; simp]
        exact parseNumber_intToDec n r hr
      | bool b =>
        cases b with
        | true =>
          have hser : serJson (.bool true) ++ r = 't' :: ('r' :: 'u' :: 'e' :: r) := by
            simp [serJson, cs]
          rw [hser, pv_true]
          simp [stripLit, cs]
        | false =>
          have hser : serJson (.bool false) ++ r = 'f' :: ('a' :: 'l' :: 's' :: 'e' :: r) := by
            simp [serJson, cs]
          rw [hser, pv_false]
          simp [stripLit, cs]
      | null =>
        have hser : serJson .null ++ r = 'n' :: ('u' :: 'l' :: 'l' :: r) := by
          simp [serJson, cs]
        rw [hser, pv_null]
        simp [stripLit, cs]
      | arr l =>
        cases l with
        | nil =>
          have hser : serJson (.arr .nil) ++ r = '[' :: (']' :: r) := by simp [serJson, cs]
          rw [hser, pv_arr_nil fuel (@skipWs_cons_of_not_ws ']' r (by decide))]
        | cons h t =>
          have hszL : jszList (.cons h t) ≤ fuel := by
            simp only [jszJson] at hsz; omega
          have hwfL : wfList (.cons h t) = true := by simpa [wfJson] using hwf
          obtain ⟨tl, htl⟩ := serElems_cons_decomp h t
          obtain ⟨c0, t0, hc0, hws0, hbr0, _⟩ := serJson_head h
          have hser : serJson (.arr (.cons h t)) ++ r
              = '[' :: (serElems (.cons h t) ++ ']' :: r) := by simp [serJson]
          have hrest : serElems (.cons h t) ++ ']' :: r = c0 :: (t0 ++ (tl ++ ']' :: r)) := by
            rw [htl, hc0]; simp
          have hskip : skipWs (serElems (.cons h t) ++ ']' :: r)
              = c0 :: (t0 ++ (tl ++ ']' :: r)) := by
            rw [hrest]; exact @skipWs_cons_of_not_ws c0 _ hws0
          rw [hser, pv_arr_cons fuel hskip hbr0, ← hrest,
            ihE h t r hszL hwfL]
          rfl
      | obj m =>
        cases m with
        | nil =>
          have hser : serJson (.obj .nil) ++ r = '\x7b' :: ('\x7d' :: r) := by
            simp [serJson, cs]
          rw [hser, pv_obj_nil fuel (@skipWs_cons_of_not_ws '\x7d' r (by decide))]
        | cons k v m =>
          have hszM : jszMembers (.cons k v m) ≤ fuel := by
            simp only [jszJson] at hsz; omega
          have hwfM : wfMembers (.cons k v m) = true := by simpa [wfJson] using hwf
          have hser : serJson (.obj (.cons k v m)) ++ r
              = '\x7b' :: ('"' :: (serMembers (.cons k v m) ++ '\x7d' :: r)) := by
            simp [serJson]
          have hskip : skipWs ('"' :: (serMembers (.cons k v m) ++ '\x7d' :: r))
              = '"' :: (serMembers (.cons k v m) ++ '\x7d' :: r) :=
            @skipWs_cons_of_not_ws '"' _ (by decide)
          rw [hser, pv_obj_cons fuel hskip, ihM k v m r hszM hwfM]
          rfl
    · intro k v m r hsz hwf
      have hwf3 : (goodStr k = true ∧ wfJson v = true) ∧ wfMembers m = true := by
        simpa [wfMembers] using hwf
      obtain ⟨⟨hgk, hwv⟩, hwm⟩ := hwf3
      cases m with
      | nil =>
        have hszV : jszJson v ≤ fuel := by
          simp only [jszMembers] at hsz; omega
        have hin : serMembers (.cons k v .nil) ++ '\x7d' :: r
            = serStrBody k ++ '"' :: (':' :: (serJson v ++ '\x7d' :: r)) := by
          simp [serMembers]
        have hk : parseStringBody (serStrBody k ++ '"' :: (':' :: (serJson v ++ '\x7d' :: r)))
            = some (k, ':' :: (serJson v ++ '\x7d' :: r)) :=
          parseStringBody_ser k _ hgk
        have hv : parseValue fuel (serJson v ++ '\x7d' :: r) = some (v, '\x7d' :: r) :=
          ihV v _ hszV hwv (by simp [nonDigitStart])
        rw [hin]
        exact parseMembers_last fuel hk hv
      | cons k' v' m' =>
        have hszV : jszJson v ≤ fuel := by
          simp only [jszMembers] at hsz; omega
        have hszM : jszMembers (.cons k' v' m') ≤ fuel := by
          simp only [jszMembers] at hsz ⊢
          have := jszJson_pos v
          omega
        have hin : serMembers (.cons k v (.cons k' v' m')) ++ '\x7d' :: r
            = serStrBody k ++ '"' :: (':' ::
                (serJson v ++ ',' :: '"' :: (serMembers (.cons k' v' m') ++ '\x7d' :: r))) := by
          simp [serMembers]
        have hk := parseStringBody_ser k
          (':' :: (serJson v ++ ',' :: '"' :: (serMembers (.cons k' v' m') ++ '\x7d' :: r)))
          hgk
        have hv : parseValue fuel
            (serJson v ++ ',' :: '"' :: (serMembers (.cons k' v' m') ++ '\x7d' :: r))
            = some (v, ',' :: '"' :: (serMembers (.cons k' v' m') ++ '\x7d' :: r)) :=
          ihV v _ hszV hwv (by simp [nonDigitStart])
        have hm : parseMembers fuel (serMembers (.cons k' v' m') ++ '\x7d' :: r)
            = some (.cons k' v' m', r) :=
          ihM k' v' m' r hszM (by simpa [wfMembers] using hwm)
        rw [hin]
        exact parseMembers_cons_step fuel hk hv hm
    · intro h t r hsz hwf
      have hwf2 : wfJson h = true ∧ wfList t = true := by simpa [wfList] using hwf
      cases t with
      | nil =>
        have hszV : jszJson h ≤ fuel := by
          simp only [jszList] at hsz; omega
        have hin : serElems (.cons h .nil) ++ ']' :: r = serJson h ++ ']' :: r := by
          simp [serElems]
        have hv : parseValue fuel (serJson h ++ ']' :: r) = some (h, ']' :: r) :=
          ihV h _ hszV hwf2.1 (by simp [nonDigitStart])
        rw [hin]
        exact parseElems_last fuel hv
      | cons h' t' =>
        have hszV : jszJson h ≤ fuel := by
          simp only [jszList] at hsz; omega
        have hszE : jszList (.cons h' t') ≤ fuel := by
          simp only [jszList] at hsz ⊢
          have := jszJson_pos h
          omega
        have hin : serElems (.cons h (.cons h' t')) ++ ']' :: r
            = serJson h ++ ',' :: (serElems (.cons h' t') ++ ']' :: r) := by
          simp [serElems]
        have hv : parseValue fuel (serJson h ++ ',' :: (serElems (.cons h' t') ++ ']' :: r))
            = some (h, ',' :: (serElems (.cons h' t') ++ ']' :: r)) :=
          ihV h _ hszV hwf2.1 (by simp [nonDigitStart])
        have he : parseElems fuel (serElems (.cons h' t') ++ ']' :: r)
            = some (.cons h' t', r) :=
          ihE h' t' r hszE (by simpa [wfList] using hwf2.2)
        rw [hin]
        exact parseElems_cons_step fuel hv he

theorem intToDec_ne_nil (n : Int) : intToDec n ≠ [] := by
  by_cases hn : n < 0
  · simp [intToDec, hn]
  · simp [intToDec, hn, natDec_ne_nil]

mutual

theorem jszJson_le_len (v : Json) : jszJson v ≤ (serJson v).length := by
  cases v with
  | str s => simp [jszJson, serJson]
  | num n =>
    have := intToDec_ne_nil n
    have : 1 ≤ (intToDec n).length := by
      cases h : intToDec n with
      | nil => exact absurd h (intToDec_ne_nil n)
      | cons a b => simp
    simpa [jszJson, serJson] using this
  | bool b => cases b <;> simp [jszJson, serJson, cs]
  | null => simp [jszJson, serJson, cs]
  | arr l =>
    cases l with
    | nil => simp [jszJson, jszList, serJson, cs]
    | cons h t =>
      have := jszList_le_len (.cons h t)
      simp only [jszJson, serJson, List.length_cons, List.length_append]
      simp at this ⊢
      omega
  | obj m =>
    cases m with
    | nil => simp [jszJson, jszMembers, serJson, cs]
    | cons k v t =>
      have := jszMembers_le_len (.cons k v t)
      simp only [jszJson, serJson, List.length_cons, List.length_append]
      simp at this ⊢
      omega

theorem jszList_le_len (l : JsonList) : jszList l ≤ (serElems l).length + 1 := by
  cases l with
  | nil => simp [jszList]
  | cons h t =>
    have hj := jszJson_le_len h
    cases t with
    | nil => simp only [jszList, serElems]; omega
    | cons h2 t2 =>
      have ht := jszList_le_len (.cons h2 t2)
      simp only [jszList, serElems, List.length_append, List.length_cons] at ht ⊢
      omega

theorem jszMembers_le_len (m : JsonMembers) : jszMembers m ≤ (serMembers m).length + 1 := by
  cases m with
  | nil => simp [jszMembers]
  | cons k v t =>
    have hj := jszJson_le_len v
    cases t with
    | nil => simp only [jszMembers, serMembers, List.length_append, List.length_cons]; omega
    | cons k2 v2 t2 =>
      have ht := jszMembers_le_len (.cons k2 v2 t2)
      simp only [jszMembers, serMembers, List.length_append, List.length_cons] at ht ⊢
      omega

end

/-- Characters that pass through both the C escaping loops and the reference
serializer unchanged: printable and not quote or backslash. -/
def plainChar (c : Char) : Bool := (0x20 ≤ c.toNat) && c ≠ '"' && c ≠ '\\'

/-- All characters plain. -/
def plainStr (s : List Char) : Bool := s.all plainChar

/-- Characters the C escaping loops make JSON-safe: printable, newline or
carriage return.  A tab or other control character is passed through raw by
`escape_json_str` and breaks the JSON string literal. -/
def logChar (c : Char) : Bool := (0x20 ≤ c.toNat) || c = '\n' || c = '\r'

theorem serEscChar_plain {c : Char} (h : plainChar c = true) : serEscChar c = [c] := by
  have h3 : (0x20 ≤ c.toNat ∧ ¬ c = '"') ∧ ¬ c = '\\' := by simpa [plainChar] using h
  have hn : c ≠ '\n' := by
    intro hc; subst hc; exact absurd h3.1.1 (by decide)
  have hr : c ≠ '\r' := by
    intro hc; subst hc; exact absurd h3.1.1 (by decide)
  have ht : c ≠ '\t' := by
    intro hc; subst hc; exact absurd h3.1.1 (by decide)
  simp [serEscChar, h3.1.2, h3.2, hn, hr, ht]

theorem serStrBody_plain (s : List Char) (h : plainStr s = true) : serStrBody s = s := by
  induction s with
  | nil => rfl
  | cons c t ih =>
    have h2 : plainChar c = true ∧ plainStr t = true := by simpa [plainStr] using h
    simp [serStrBody, serEscChar_plain h2.1, ih h2.2]

theorem goodStrChar_of_plain {c : Char} (h : plainChar c = true) : goodStrChar c = true := by
  have h3 : (0x20 ≤ c.toNat ∧ ¬ c = '"') ∧ ¬ c = '\\' := by simpa [plainChar] using h
  simp [goodStrChar, h3.1.1]

theorem goodStr_of_plain (s : List Char) (h : plainStr s = true) : goodStr s = true := by
  induction s with
  | nil => rfl
  | cons c t ih =>
    have h2 : plainChar c = true ∧ plainStr t = true := by simpa [plainStr] using h
    simp [goodStr, goodStrChar_of_plain h2.1]
    have := ih h2.2
    simpa [goodStr] using this

theorem goodStrChar_of_log {c : Char} (h : logChar c = true) : goodStrChar c = true := by
  have h3 : (0x20 ≤ c.toNat ∨ c = '\n') ∨ c = '\r' := by simpa [logChar] using h
  rcases h3 with (h3 | h3) | h3 <;> simp [goodStrChar, h3]

theorem goodStr_of_log (s : List Char) (h : s.all logChar = true) : goodStr s = true := by
  induction s with
  | nil => rfl
  | cons c t ih =>
    have h2 : logChar c = true ∧ t.all logChar = true := by simpa using h
    have := ih h2.2
    simp [goodStr, goodStrChar_of_log h2.1]
    simpa [goodStr] using this

/-- On characters allowed in log messages, the C escape table agrees with the
reference serializer escape table. -/
theorem escape_pair_serEscChar {c : Char} (h : logChar c = true) :
    (∀ p, escape_pair c = some p → serEscChar c = p)
      ∧ (escape_pair c = none → serEscChar c = [c]) := by
  by_cases h1 : c = '"'
  · subst h1; constructor
    · intro p hp; simp [escape_pair] at hp; simp [serEscChar, ← hp]
    · intro hp; simp [escape_pair] at hp
  · by_cases h2 : c = '\\'
    · subst h2; constructor
      · intro p hp; simp [escape_pair] at hp; simp [serEscChar, ← hp]
      · intro hp; simp [escape_pair] at hp
    · by_cases h3 : c = '\n'
      · subst h3; constructor
        · intro p hp; simp [escape_pair] at hp; simp [serEscChar, ← hp]
        · intro hp; simp [escape_pair] at hp
      · by_cases h4 : c = '\r'
        · subst h4; constructor
          · intro p hp; simp [escape_pair] at hp; simp [serEscChar, ← hp]
          · intro hp; simp [escape_pair] at hp
        · have hge : 0x20 ≤ c.toNat := by
            have h5 : (0x20 ≤ c.toNat ∨ c = '\n') ∨ c = '\r' := by simpa [logChar] using h
            rcases h5 with (h5 | h5) | h5
            · exact h5
            · exact absurd h5 h3
            · exact absurd h5 h4
          have ht : c ≠ '\t' := by
            intro hc; subst hc; exact absurd hge (by decide)
          constructor
          · intro p hp
            simp [escape_pair, h1, h2, h3, h4] at hp
          · intro _
            simp [serEscChar, h1, h2, h3, h4, ht]

theorem escape_json_str_go_eq (out_size : Nat) :
    ∀ (msg : List Char) (j : Nat), msg.all logChar = true →
      j + (serStrBody msg).length + 1 ≤ out_size →
      escape_json_str_go out_size msg j = serStrBody msg := by
  intro msg
  induction msg with
  | nil => intro j _ _; rfl
  | cons c t ih =>
    intro j hall hfit
    have h2 : logChar c = true ∧ t.all logChar = true := by simpa using hall
    have hlen : (serStrBody (c :: t)).length
        = (serEscChar c).length + (serStrBody t).length := by
      simp [serStrBody]
    rw [escape_json_str_go]
    cases hp : escape_pair c with
    | some p =>
      have hpc : serEscChar c = p := (escape_pair_serEscChar h2.1).1 p hp
      have hplen : p.length = 2 := by
        have : escape_pair c = some p := hp
        by_cases h1 : c = '"'
        · subst h1; simp [escape_pair] at this; simp [← this]
        · by_cases hb : c = '\\'
          · subst hb; simp [escape_pair] at this; simp [← this]
          · by_cases hn : c = '\n'
            · subst hn; simp [escape_pair] at this; simp [← this]
            · by_cases hr : c = '\r'
              · subst hr; simp [escape_pair] at this; simp [← this]
              · simp [escape_pair, h1, hb, hn, hr] at this
      have hcond : j < out_size - 1 := by
        rw [hlen, hpc, hplen] at hfit; omega
      have hcond2 : ¬ (j + 2 ≥ out_size) := by
        rw [hlen, hpc, hplen] at hfit; omega
      simp only [hp, if_pos hcond, if_neg hcond2]
      rw [ih (j + 2) h2.2 (by rw [hlen, hpc, hplen] at hfit; omega)]
      rw [serStrBody, hpc]
    | none =>
      have hpc : serEscChar c = [c] := (escape_pair_serEscChar h2.1).2 hp
      have hcond : j < out_size - 1 := by
        rw [hlen, hpc] at hfit; simp at hfit; omega
      simp only [hp, if_pos hcond]
      rw [ih (j + 1) h2.2 (by rw [hlen, hpc] at hfit; simp at hfit; omega)]
      rw [serStrBody, hpc]
      rfl

theorem resp_escape_go_eq :
    ∀ (body : List Char) (j : Nat), body.all logChar = true →
      j + (serStrBody body).length + 1 ≤ 16384 →
      resp_escape_go body j = serStrBody body := by
  intro body
  induction body with
  | nil => intro j _ _; rfl
  | cons c t ih =>
    intro j hall hfit
    have h2 : logChar c = true ∧ t.all logChar = true := by simpa using hall
    have hlen : (serStrBody (c :: t)).length
        = (serEscChar c).length + (serStrBody t).length := by
      simp [serStrBody]
    rw [resp_escape_go]
    cases hp : escape_pair c with
    | some p =>
      have hpc : serEscChar c = p := (escape_pair_serEscChar h2.1).1 p hp
      have hplen : p.length = 2 := by
        have : escape_pair c = some p := hp
        by_cases h1 : c = '"'
        · subst h1; simp [escape_pair] at this; simp [← this]
        · by_cases hb : c = '\\'
          · subst hb; simp [escape_pair] at this; simp [← this]
          · by_cases hn : c = '\n'
            · subst hn; simp [escape_pair] at this; simp [← this]
            · by_cases hr : c = '\r'
              · subst hr; simp [escape_pair] at this; simp [← this]
              · simp [escape_pair, h1, hb, hn, hr] at this
      have hcond : j < 16384 - 1 := by
        rw [hlen, hpc, hplen] at hfit; omega
      simp only [hp, if_pos hcond]
      rw [ih (j + 2) h2.2 (by rw [hlen, hpc, hplen] at hfit; omega)]
      rw [serStrBody, hpc]
    | none =>
      have hpc : serEscChar c = [c] := (escape_pair_serEscChar h2.1).2 hp
      have hcond : j < 16384 - 1 := by
        rw [hlen, hpc] at hfit; simp at hfit; omega
      simp only [hp, if_pos hcond]
      rw [ih (j + 1) h2.2 (by rw [hlen, hpc] at hfit; simp at hfit; omega)]
      rw [serStrBody, hpc]
      rfl

/-- The JSON value a correctly escaped wire line denotes. -/
def recordJson (typec idc : List Char) (pv : Json) : Json :=
  .obj (.cons (cs "id") (.str idc) (.cons (cs "type") (.str typec)
    (.cons (cs "payload") pv .nil)))

theorem render_eq_ser (typec idc payload : List Char) (pv : Json)
    (hid : serStrBody idc = idc) (hty : serStrBody typec = typec)
    (hp : payload = serJson pv) :
    Msg.render (send_message typec idc payload)
      = serJson (recordJson typec idc pv) ++ ['\n'] := by
  subst hp
  simp [Msg.render, send_message, recordJson, serJson, serMembers, cs, hid, hty,
    serStrBody, serEscChar]

theorem isWireRecord_render (typec idc payload : List Char) (pv : Json)
    (hid : plainStr idc = true) (hty : plainStr typec = true)
    (hp : payload = serJson pv) (hwf : wfJson pv = true) :
    isWireRecord (Msg.render (send_message typec idc payload)) = true := by
  have hrender := render_eq_ser typec idc payload pv (serStrBody_plain _ hid)
    (serStrBody_plain _ hty) hp
  rw [hrender]
  have hwfr : wfJson (recordJson typec idc pv) = true := by
    simp [recordJson, wfJson, wfMembers, goodStr_of_plain _ hid, goodStr_of_plain _ hty, hwf]
    constructor <;> decide
  have hfuel : jszJson (recordJson typec idc pv)
      ≤ (serJson (recordJson typec idc pv) ++ ['\n']).length + 1 := by
    have := jszJson_le_len (recordJson typec idc pv)
    simp only [List.length_append, List.length_cons, List.length_nil]
    omega
  have hparse := (parse_ser_roundtrip ((serJson (recordJson typec idc pv) ++ ['\n']).length + 1)).1
      (recordJson typec idc pv) ['\n'] hfuel hwfr (by decide)
  unfold isWireRecord
  rw [hparse]
  simp [recordJson, memberKeys]

theorem snprintfTrunc_id (size : Nat) (l : List Char) (h : l.length ≤ size - 1) :
    snprintfTrunc size l = l :=
  List.take_of_length_le h

theorem error_payload_ser (msg code : List Char) (hm : plainStr msg = true)
    (hc : plainStr code = true) :
    cs "\x7b\"message\":\"" ++ msg ++ cs "\",\"code\":\"" ++ code ++ cs "\"\x7d"
      = serJson (.obj (.cons (cs "message") (.str msg)
          (.cons (cs "code") (.str code) .nil))) := by
  simp [serJson, serMembers, cs, serStrBody_plain _ hm, serStrBody_plain _ hc,
    serStrBody, serEscChar]

theorem log_payload_ser (level msg : List Char) (hl : plainStr level = true)
    (hm : msg.all logChar = true) (hfit : (serStrBody msg).length + 1 ≤ 768) :
    cs "\x7b\"level\":\"" ++ level ++ cs "\",\"message\":\""
        ++ escape_json_str msg 768 ++ cs "\"\x7d"
      = serJson (.obj (.cons (cs "level") (.str level)
          (.cons (cs "message") (.str msg) .nil))) := by
  rw [show escape_json_str msg 768 = serStrBody msg from
    escape_json_str_go_eq 768 msg 0 hm (by omega)]
  simp [serJson, serMembers, cs, serStrBody_plain _ hl, serStrBody, serEscChar]

theorem response_payload_ser (status : Int) (headers body : List Char) (hv : Json)
    (hh : headers = serJson hv) (hb : body.all logChar = true)
    (hfit : (serStrBody body).length + 1 ≤ 16384) :
    cs "\x7b\"status\":" ++ intToDec status ++ cs ",\"headers\":" ++ headers
        ++ cs ",\"body\":\"" ++ resp_escape_go body 0 ++ cs "\"\x7d"
      = serJson (.obj (.cons (cs "status") (.num status)
          (.cons (cs "headers") hv (.cons (cs "body") (.str body) .nil)))) := by
  subst hh
  rw [show resp_escape_go body 0 = serStrBody body from
    resp_escape_go_eq body 0 hb (by omega)]
  simp [serJson, serMembers, cs, serStrBody, serEscChar]

/-- C2 counterexample: `send_error` splices the message into the payload without
escaping, so a message containing a double quote produces a stdout line that is
not valid JSON.  This refutes the claim for arbitrary message content. -/
theorem c2_counterexample :
    isWireRecord ((send_error (cs "x") (cs "a\"b") (cs "HANDLER_ERROR")).render) = false := by
  decide

/-- C2 (amended): every stdout line is one newline-terminated JSON object with
exactly the keys id, type, payload, provided the spliced strings contain no
character the ad-hoc escaping fails to protect (quote, backslash or control
characters in id/type/message/code; control characters other than newline and
carriage return in log messages and bodies) and the formatted payload fits the
fixed snprintf buffers. -/
theorem c2_wire_format_amended :
    (∀ wid, plainStr wid = true → isWireRecord ((send_ready wid).render) = true)
  ∧ (∀ id msg code, plainStr id = true → plainStr msg = true → plainStr code = true →
      msg.length + code.length ≤ 999 →
      isWireRecord ((send_error id msg code).render) = true)
  ∧ (∀ id level msg, plainStr id = true → plainStr level = true →
      msg.all logChar = true → (serStrBody msg).length + 1 ≤ 768 →
      level.length + (serStrBody msg).length + 25 ≤ 1023 →
      isWireRecord ((send_log id level msg).render) = true)
  ∧ (∀ id status headers body hv, plainStr id = true → headers = serJson hv →
      wfJson hv = true → body.all logChar = true →
      (serStrBody body).length + 1 ≤ 16384 →
      (intToDec status).length + headers.length + (serStrBody body).length + 32 ≤ 32767 →
      isWireRecord ((send_response id status headers body).render) = true) := by
  refine ⟨?_, ?_, ?_, ?_⟩
  · intro wid hwid
    exact isWireRecord_render _ _ _ (.obj .nil) hwid (by decide) (by simp [serJson]) (by decide)
  · intro id msg code hid hm hc hlen
    have hplen : (cs "\x7b\"message\":\"" ++ msg ++ cs "\",\"code\":\"" ++ code
        ++ cs "\"\x7d").length ≤ 1023 := by
      simp [cs]
      omega
    simp only [send_error, snprintfTrunc_id 1024 _ hplen]
    exact isWireRecord_render _ _ _ _ hid (by decide) (error_payload_ser msg code hm hc)
      (by simp only [wfJson, wfMembers, goodStr_of_plain _ hm, goodStr_of_plain _ hc]
          simp
          constructor <;> decide)
  · intro id level msg hid hlv hm h768 hfit
    have hesc : escape_json_str msg 768 = serStrBody msg :=
      escape_json_str_go_eq 768 msg 0 hm (by omega)
    have hplen : (cs "\x7b\"level\":\"" ++ level ++ cs "\",\"message\":\""
        ++ escape_json_str msg 768 ++ cs "\"\x7d").length ≤ 1023 := by
      rw [hesc]
      simp [cs]
      omega
    simp only [send_log, snprintfTrunc_id 1024 _ hplen]
    exact isWireRecord_render _ _ _ _ hid (by decide)
      (log_payload_ser level msg hlv hm h768)
      (by simp only [wfJson, wfMembers, goodStr_of_plain _ hlv, goodStr_of_log _ hm]
          simp
          constructor <;> decide)
  · intro id status headers body hv hid hh hwfv hb h16 hfit
    have hresp : resp_escape_go body 0 = serStrBody body :=
      resp_escape_go_eq body 0 hb (by omega)
    have hplen : (cs "\x7b\"status\":" ++ intToDec status ++ cs ",\"headers\":" ++ headers
        ++ cs ",\"body\":\"" ++ resp_escape_go body 0 ++ cs "\"\x7d").length ≤ 32767 := by
      rw [hresp]
      simp [cs]
      omega
    simp only [send_response, snprintfTrunc_id 32768 _ hplen]
    exact isWireRecord_render _ _ _ _ hid (by decide)
      (response_payload_ser status headers body hv hh hb h16)
      (by simp only [wfJson, wfMembers, goodStr_of_log _ hb, hwfv]
          simp
          constructor <;> decide)

/-- Witness: the amended wire-format theorem applied at concrete records. -/
theorem c2_wire_format_amended_witness :
    isWireRecord ((send_ready (cs "worker-1")).render) = true
  ∧ isWireRecord ((send_error (cs "a") (cs "boom") (cs "HANDLER_ERROR")).render) = true
  ∧ isWireRecord ((send_log (cs "a") (cs "info") (cs "n= 3")).render) = true
  ∧ isWireRecord ((send_response (cs "a") 200 (cs "\x7b\x7d") (cs "AA==")).render) = true :=
  ⟨c2_wire_format_amended.1 (cs "worker-1") (by decide),
   c2_wire_format_amended.2.1 (cs "a") (cs "boom") (cs "HANDLER_ERROR")
     (by decide) (by decide) (by decide) (by decide),
   c2_wire_format_amended.2.2.1 (cs "a") (cs "info") (cs "n= 3")
     (by decide) (by decide) (by decide) (by decide) (by decide),
   c2_wire_format_amended.2.2.2 (cs "a") 200 (cs "\x7b\x7d") (cs "AA==") (.obj .nil)
     (by decide) (by simp [serJson]) (by decide) (by decide) (by decide)
     (by decide)⟩

/-- The base64 alphabet of the C encoder in `execute_handler`. -/
def b64chars : List Char := cs "ABCDEFGHIJKLMNOPQRSTUVWXYZabcdefghijklmnopqrstuvwxyz0123456789+/"

/-- `base64_chars[i]` for the 6-bit index `i`. -/
def b64digit (i : Nat) : Char := b64chars.getD i '?'

/-- The C base64 loop of `execute_handler` with an unbounded output buffer:
per 3-byte group, `b = s[i]<<16 | s[i+1]<<8 | s[i+2]` and the output digits are
`(b>>18)&63, (b>>12)&63, (b>>6)&63, b&63`, with `=` padding for a short final
group (bit operations written as division and remainder). -/
def b64groups : List Nat → List Char
  | [] => []
  | [x] =>
    let b := x * 65536
    [b64digit (b / 262144 % 64), b64digit (b / 4096 % 64), '=', '=']
  | [x, y] =>
    let b := x * 65536 + y * 256
    [b64digit (b / 262144 % 64), b64digit (b / 4096 % 64), b64digit (b / 64 % 64), '=']
  | x :: y :: z :: rest =>
    let b := x * 65536 + y * 256 + z
    b64digit (b / 262144 % 64) :: b64digit (b / 4096 % 64) :: b64digit (b / 64 % 64)
      :: b64digit (b % 64) :: b64groups rest

/-- The C base64 loop exactly as written: output cursor `j`, loop condition
`i < len && j < sizeof(encoded_body) - 4` with `encoded_body[16384]`, so
encoding stops (silent truncation) once `j` reaches 16380. -/
def b64bounded : List Nat → Nat → List Char
  | [], _ => []
  | x :: rest, j =>
    if j < 16384 - 4 then
      match rest with
      | [] =>
        let b := x * 65536
        [b64digit (b / 262144 % 64), b64digit (b / 4096 % 64), '=', '=']
      | [y] =>
        let b := x * 65536 + y * 256
        [b64digit (b / 262144 % 64), b64digit (b / 4096 % 64), b64digit (b / 64 % 64), '=']
      | y :: z :: rest2 =>
        let b := x * 65536 + y * 256 + z
        b64digit (b / 262144 % 64) :: b64digit (b / 4096 % 64) :: b64digit (b / 64 % 64)
          :: b64digit (b % 64) :: b64bounded rest2 (j + 4)
    else []

/-- UTF-8 bytes of one code point, as `JS_ToCString` produces them. -/
def utf8Char (c : Nat) : List Nat :=
  if c < 0x80 then [c]
  else if c < 0x800 then [0xC0 + c / 64, 0x80 + c % 64]
  else [0xE0 + c / 4096, 0x80 + c / 64 % 64, 0x80 + c % 64]

/-- UTF-8 bytes of a JS string (its code points), as `JS_ToCString` returns. -/
def utf8Str : List Nat → List Nat
  | [] => []
  | c :: rest => utf8Char c ++ utf8Str rest

/-- The C side reads the `JS_ToCString` result as a NUL-terminated string
(`strlen`), so only the bytes before the first zero byte are visible. -/
def cStrBytes (l : List Nat) : List Nat := l.takeWhile (· ≠ 0)

/-- The `chars` table of the atob/btoa polyfill: the alphabet plus `=`. -/
def atobChars : List Char :=
  cs "ABCDEFGHIJKLMNOPQRSTUVWXYZabcdefghijklmnopqrstuvwxyz0123456789+/="

/-- JavaScript `String.indexOf`: index or -1. -/
def jsIndexOf (l : List Char) (c : Char) : Int :=
  match l.indexOf? c with
  | some i => i
  | none => -1

/-- JavaScript `-2 * bc & 6` evaluated on 32-bit two's complement integers. -/
def negTwoAnd6 (bc : Nat) : Nat := ((2 ^ 32 - (2 * bc) % 2 ^ 32) % 2 ^ 32) &&& 6

/-- The decode loop of the `atob` polyfill: per character, `buffer` is its
index in `chars`; `~buffer` skips unknown characters; otherwise
`bs = bc % 4 ? bs * 64 + buffer : buffer`, `bc` is post-incremented, and when
the old `bc % 4` was non-zero the byte `255 & bs >> (-2 * bc & 6)` is emitted
(with the already incremented `bc`). -/
def atobLoop : List Char → Nat → Nat → List Nat
  | [], _, _ => []
  | ch :: rest, bc, bs =>
    let buffer := jsIndexOf atobChars ch
    if buffer = -1 then atobLoop rest bc bs
    else
      let bs2 := if bc % 4 ≠ 0 then bs * 64 + buffer.toNat else buffer.toNat
      if bc % 4 ≠ 0 then
        (255 &&& (bs2 >>> negTwoAnd6 (bc + 1))) :: atobLoop rest (bc + 1) bs2
      else atobLoop rest (bc + 1) bs2

/-- `String(input).replace(/=+$/, '')`. -/
def stripTrailingEq (l : List Char) : List Char :=
  (l.reverse.dropWhile (· = '=')).reverse

/-- The complete `atob` polyfill: strip trailing `=`, throw when the remaining
length is 1 mod 4, then run the decode loop. -/
def atobPolyfill (input : List Char) : Except String (List Nat) :=
  let str := stripTrailingEq input
  if str.length % 4 = 1 then
    .error "atob failed: The string to be decoded is not correctly encoded."
  else .ok (atobLoop str 0 0)

/-- Padding-free base64 text of a byte string: what `stripTrailingEq` leaves of
the C encoder output. -/
def b64noPad : List Nat → List Char
  | [] => []
  | [x] =>
    let b := x * 65536
    [b64digit (b / 262144 % 64), b64digit (b / 4096 % 64)]
  | [x, y] =>
    let b := x * 65536 + y * 256
    [b64digit (b / 262144 % 64), b64digit (b / 4096 % 64), b64digit (b / 64 % 64)]
  | x :: y :: z :: rest =>
    let b := x * 65536 + y * 256 + z
    b64digit (b / 262144 % 64) :: b64digit (b / 4096 % 64) :: b64digit (b / 64 % 64)
      :: b64digit (b % 64) :: b64noPad rest

theorem and6_mod8 (n : Nat) : n &&& 6 = n % 8 &&& 6 := by
  apply Nat.eq_of_testBit_eq
  intro i
  rw [Nat.testBit_and, Nat.testBit_and]
  have hmod := Nat.testBit_mod_two_pow n 3 i
  by_cases h : i < 3
  · rw [hmod]
    simp [h]
  · have h6 : (6 : Nat).testBit i = false := by
      apply Nat.testBit_eq_false_of_lt
      calc (6 : Nat) < 2 ^ 3 := by norm_num
        _ ≤ 2 ^ i := Nat.pow_le_pow_right (by norm_num) (by omega)
    simp [h6]

theorem negTwoAnd6_two {bc : Nat} (h : bc % 4 = 0) : negTwoAnd6 (bc + 2) = 4 := by
  unfold negTwoAnd6
  rw [and6_mod8]
  have hm : ((2 ^ 32 - (2 * (bc + 2)) % 2 ^ 32) % 2 ^ 32) % 8 = 4 := by omega
  rw [hm]
  decide

theorem negTwoAnd6_three {bc : Nat} (h : bc % 4 = 0) : negTwoAnd6 (bc + 3) = 2 := by
  unfold negTwoAnd6
  rw [and6_mod8]
  have hm : ((2 ^ 32 - (2 * (bc + 3)) % 2 ^ 32) % 2 ^ 32) % 8 = 2 := by omega
  rw [hm]
  decide

theorem negTwoAnd6_four {bc : Nat} (h : bc % 4 = 0) : negTwoAnd6 (bc + 4) = 0 := by
  unfold negTwoAnd6
  rw [and6_mod8]
  have hm : ((2 ^ 32 - (2 * (bc + 4)) % 2 ^ 32) % 2 ^ 32) % 8 = 0 := by omega
  rw [hm]
  decide

theorem and255 (w : Nat) : 255 &&& w = w % 256 := by
  rw [Nat.and_comm]
  have := Nat.and_pow_two_sub_one_eq_mod w 8
  norm_num at this
  exact this

theorem jsIndexOf_b64digit_fin : ∀ i : Fin 64, jsIndexOf atobChars (b64digit i.1) = i.1 := by
  decide

theorem jsIndexOf_b64digit {i : Nat} (h : i < 64) : jsIndexOf atobChars (b64digit i) = i :=
  jsIndexOf_b64digit_fin ⟨i, h⟩

theorem b64digit_ne_eq_fin : ∀ i : Fin 64, b64digit i.1 ≠ '=' := by decide

theorem b64digit_ne_eq {i : Nat} (h : i < 64) : b64digit i ≠ '=' :=
  b64digit_ne_eq_fin ⟨i, h⟩

theorem atobLoop_cons_valid {d : Nat} (hd : d < 64) (rest : List Char) (bc bs : Nat) :
    atobLoop (b64digit d :: rest) bc bs =
      if bc % 4 ≠ 0 then
        (255 &&& ((bs * 64 + d) >>> negTwoAnd6 (bc + 1))) :: atobLoop rest (bc + 1) (bs * 64 + d)
      else atobLoop rest (bc + 1) d := by
  rw [atobLoop]
  rw [jsIndexOf_b64digit hd]
  have hne : ¬ ((d : Int) = -1) := by omega
  simp only [hne, if_false]
  by_cases hbc : bc % 4 ≠ 0
  · simp [hbc]
  · simp [hbc]

theorem b64noPad_one (x : Nat) :
    b64noPad [x] = [b64digit (x * 65536 / 262144 % 64), b64digit (x * 65536 / 4096 % 64)] := by
  simp [b64noPad]

theorem b64noPad_two (x y : Nat) :
    b64noPad [x, y] = [b64digit ((x * 65536 + y * 256) / 262144 % 64),
      b64digit ((x * 65536 + y * 256) / 4096 % 64),
      b64digit ((x * 65536 + y * 256) / 64 % 64)] := by
  simp [b64noPad]

theorem b64noPad_big (x y z : Nat) (rest : List Nat) :
    b64noPad (x :: y :: z :: rest)
      = b64digit ((x * 65536 + y * 256 + z) / 262144 % 64)
        :: b64digit ((x * 65536 + y * 256 + z) / 4096 % 64)
        :: b64digit ((x * 65536 + y * 256 + z) / 64 % 64)
        :: b64digit ((x * 65536 + y * 256 + z) % 64) :: b64noPad rest := by
  simp [b64noPad]

theorem atobLoop_noPad :
    ∀ (l : List Nat), (∀ b ∈ l, b < 256) → ∀ bc bs, bc % 4 = 0 →
      atobLoop (b64noPad l) bc bs = l
  | [] => by intro _ bc bs _; rfl
  | [x] => by
    intro hl bc bs hbc
    have hx : x < 256 := hl x (by simp)
    rw [b64noPad_one]
    rw [atobLoop_cons_valid (Nat.mod_lt _ (by omega)) _ bc bs]
    rw [if_neg (by omega)]
    rw [atobLoop_cons_valid (Nat.mod_lt _ (by omega)) _ (bc + 1) _]
    rw [if_pos (by omega)]
    rw [show bc + 1 + 1 = bc + 2 from by omega, negTwoAnd6_two hbc, and255,
      Nat.shiftRight_eq_div_pow]
    norm_num
    refine ⟨by omega, by simp [atobLoop]⟩
  | [x, y] => by
    intro hl bc bs hbc
    have hx : x < 256 := hl x (by simp)
    have hy : y < 256 := hl y (by simp)
    rw [b64noPad_two]
    rw [atobLoop_cons_valid (Nat.mod_lt _ (by omega)) _ bc bs]
    rw [if_neg (by omega)]
    rw [atobLoop_cons_valid (Nat.mod_lt _ (by omega)) _ (bc + 1) _]
    rw [if_pos (by omega)]
    rw [atobLoop_cons_valid (Nat.mod_lt _ (by omega)) _ (bc + 1 + 1) _]
    rw [if_pos (by omega)]
    rw [show bc + 1 + 1 = bc + 2 from by omega, show bc + 2 + 1 = bc + 3 from by omega,
      negTwoAnd6_two hbc, negTwoAnd6_three hbc, and255, and255,
      Nat.shiftRight_eq_div_pow, Nat.shiftRight_eq_div_pow]
    norm_num
    refine ⟨by omega, by omega, by simp [atobLoop]⟩
  | x :: y :: z :: rest => by
    intro hl bc bs hbc
    have hx : x < 256 := hl x (by simp)
    have hy : y < 256 := hl y (by simp)
    have hz : z < 256 := hl z (by simp)
    have hrest : ∀ b ∈ rest, b < 256 := fun b hb => hl b (by simp [hb])
    rw [b64noPad_big]
    rw [atobLoop_cons_valid (Nat.mod_lt _ (by omega)) _ bc bs]
    rw [if_neg (by omega)]
    rw [atobLoop_cons_valid (Nat.mod_lt _ (by omega)) _ (bc + 1) _]
    rw [if_pos (by omega)]
    rw [atobLoop_cons_valid (Nat.mod_lt _ (by omega)) _ (bc + 1 + 1) _]
    rw [if_pos (by omega)]
    rw [atobLoop_cons_valid (Nat.mod_lt _ (by omega)) _ (bc + 1 + 1 + 1) _]
    rw [if_pos (by omega)]
    rw [show bc + 1 + 1 = bc + 2 from by omega, show bc + 2 + 1 = bc + 3 from by omega,
      show bc + 3 + 1 = bc + 4 from by omega,
      negTwoAnd6_two hbc, negTwoAnd6_three hbc, negTwoAnd6_four hbc, and255, and255, and255,
      Nat.shiftRight_eq_div_pow, Nat.shiftRight_eq_div_pow, Nat.shiftRight_eq_div_pow]
    rw [atobLoop_noPad rest hrest (bc + 4) _ (by omega)]
    norm_num
    refine ⟨by omega, by omega, by omega⟩

theorem b64noPad_ne_nil : ∀ (x : Nat) (l : List Nat), b64noPad (x :: l) ≠ [] := by
  intro x l
  match l with
  | [] => rw [b64noPad_one]; simp
  | [y] => rw [b64noPad_two]; simp
  | y :: z :: rest => rw [b64noPad_big]; simp

theorem stripTrailingEq_b64groups : ∀ l : List Nat, stripTrailingEq (b64groups l) = b64noPad l
  | [] => by simp [b64groups, stripTrailingEq, b64noPad]
  | [x] => by
    have h1 : ¬ (b64digit (x * 65536 / 262144 % 64) = '=') :=
      b64digit_ne_eq (Nat.mod_lt _ (by omega))
    have h2 : ¬ (b64digit (x * 65536 / 4096 % 64) = '=') :=
      b64digit_ne_eq (Nat.mod_lt _ (by omega))
    simp [b64groups, stripTrailingEq, b64noPad_one, List.dropWhile, h1, h2]
  | [x, y] => by
    have h1 : ¬ (b64digit ((x * 65536 + y * 256) / 262144 % 64) = '=') :=
      b64digit_ne_eq (Nat.mod_lt _ (by omega))
    have h2 : ¬ (b64digit ((x * 65536 + y * 256) / 4096 % 64) = '=') :=
      b64digit_ne_eq (Nat.mod_lt _ (by omega))
    have h3 : ¬ (b64digit ((x * 65536 + y * 256) / 64 % 64) = '=') :=
      b64digit_ne_eq (Nat.mod_lt _ (by omega))
    simp [b64groups, stripTrailingEq, b64noPad_two, List.dropWhile, h1, h2, h3]
  | x :: y :: z :: rest => by
    have h1 : ¬ (b64digit ((x * 65536 + y * 256 + z) / 262144 % 64) = '=') :=
      b64digit_ne_eq (Nat.mod_lt _ (by omega))
    have h2 : ¬ (b64digit ((x * 65536 + y * 256 + z) / 4096 % 64) = '=') :=
      b64digit_ne_eq (Nat.mod_lt _ (by omega))
    have h3 : ¬ (b64digit ((x * 65536 + y * 256 + z) / 64 % 64) = '=') :=
      b64digit_ne_eq (Nat.mod_lt _ (by omega))
    have h4 : ¬ (b64digit ((x * 65536 + y * 256 + z) % 64) = '=') :=
      b64digit_ne_eq (Nat.mod_lt _ (by omega))
    have hgroups : b64groups (x :: y :: z :: rest)
        = b64digit ((x * 65536 + y * 256 + z) / 262144 % 64)
          :: b64digit ((x * 65536 + y * 256 + z) / 4096 % 64)
          :: b64digit ((x * 65536 + y * 256 + z) / 64 % 64)
          :: b64digit ((x * 65536 + y * 256 + z) % 64) :: b64groups rest := by
      simp [b64groups]
    cases rest with
    | nil =>
      rw [hgroups]
      simp [b64groups, stripTrailingEq, b64noPad_big, b64noPad, List.dropWhile, h1, h2, h3, h4]
    | cons w ws =>
      have ih := stripTrailingEq_b64groups (w :: ws)
      have hne : b64noPad (w :: ws) ≠ [] := b64noPad_ne_nil w ws
      have hdw : (b64groups (w :: ws)).reverse.dropWhile (fun c => c = '=')
          = (b64noPad (w :: ws)).reverse := by
        have : ((b64groups (w :: ws)).reverse.dropWhile (fun c => c = '=')).reverse
            = b64noPad (w :: ws) := ih
        calc (b64groups (w :: ws)).reverse.dropWhile (fun c => c = '=')
            = (((b64groups (w :: ws)).reverse.dropWhile (fun c => c = '=')).reverse).reverse := by
              simp
          _ = (b64noPad (w :: ws)).reverse := by rw [this]
      rw [hgroups, b64noPad_big]
      unfold stripTrailingEq
      rw [show (b64digit ((x * 65536 + y * 256 + z) / 262144 % 64)
          :: b64digit ((x * 65536 + y * 256 + z) / 4096 % 64)
          :: b64digit ((x * 65536 + y * 256 + z) / 64 % 64)
          :: b64digit ((x * 65536 + y * 256 + z) % 64) :: b64groups (w :: ws)).reverse
          = (b64groups (w :: ws)).reverse
            ++ [b64digit ((x * 65536 + y * 256 + z) % 64),
                b64digit ((x * 65536 + y * 256 + z) / 64 % 64),
                b64digit ((x * 65536 + y * 256 + z) / 4096 % 64),
                b64digit ((x * 65536 + y * 256 + z) / 262144 % 64)] from by simp]
      rw [List.dropWhile_append, hdw]
      rw [if_neg (by simp [hne])]
      simp

theorem b64noPad_len_mod : ∀ l : List Nat, (b64noPad l).length % 4 ≠ 1
  | [] => by simp [b64noPad]
  | [x] => by rw [b64noPad_one]; simp
  | [x, y] => by rw [b64noPad_two]; simp
  | x :: y :: z :: rest => by
    rw [b64noPad_big]
    have := b64noPad_len_mod rest
    simp only [List.length_cons]
    omega

/-- The guest atob polyfill decodes the C encoder output back to the original
byte string. -/
theorem atob_b64groups (l : List Nat) (hl : ∀ b ∈ l, b < 256) :
    atobPolyfill (b64groups l) = .ok l := by
  unfold atobPolyfill
  rw [stripTrailingEq_b64groups]
  rw [if_neg (b64noPad_len_mod l)]
  rw [atobLoop_noPad l hl 0 0 rfl]

theorem b64bounded_eq : ∀ (l : List Nat) (j : Nat), j + 4 * ((l.length + 2) / 3) ≤ 16380 →
    b64bounded l j = b64groups l
  | [], j => by intro _; simp [b64bounded, b64groups]
  | [x], j => by
    intro h
    simp only [List.length_cons, List.length_nil] at h
    simp [b64bounded, b64groups, if_pos (show j < 16384 - 4 by omega)]
  | [x, y], j => by
    intro h
    simp only [List.length_cons, List.length_nil] at h
    simp [b64bounded, b64groups, if_pos (show j < 16384 - 4 by omega)]
  | x :: y :: z :: rest, j => by
    intro h
    simp only [List.length_cons] at h
    have hrec := b64bounded_eq rest (j + 4) (by omega)
    simp [b64bounded, b64groups, if_pos (show j < 16384 - 4 by omega), hrec]

theorem b64bounded_len_le : ∀ (l : List Nat) (j : Nat), 4 ∣ j → j ≤ 16380 →
    (b64bounded l j).length ≤ 16380 - j
  | [], j => by intro _ _; simp [b64bounded]
  | [x], j => by
    intro hdvd hle
    by_cases hj : j < 16384 - 4
    · simp [b64bounded, if_pos hj]
      omega
    · simp [b64bounded, if_neg hj]
  | [x, y], j => by
    intro hdvd hle
    by_cases hj : j < 16384 - 4
    · simp [b64bounded, if_pos hj]
      omega
    · simp [b64bounded, if_neg hj]
  | x :: y :: z :: rest, j => by
    intro hdvd hle
    by_cases hj : j < 16384 - 4
    · have hrec := b64bounded_len_le rest (j + 4) (by omega) (by omega)
      simp [b64bounded, if_pos hj, List.length_cons]
      omega
    · simp [b64bounded, if_neg hj]

theorem b64groups_len : ∀ l : List Nat, (b64groups l).length = 4 * ((l.length + 2) / 3)
  | [] => by simp [b64groups]
  | [x] => by simp [b64groups]
  | [x, y] => by simp [b64groups]
  | x :: y :: z :: rest => by
    have := b64groups_len rest
    simp only [b64groups, List.length_cons]
    simp only [this]
    omega

theorem cStrBytes_utf8_ascii : ∀ l : List Nat, (∀ c ∈ l, 0 < c ∧ c < 128) →
    cStrBytes (utf8Str l) = l
  | [] => by intro _; rfl
  | c :: rest => by
    intro h
    have hc := h c (by simp)
    have hrest := cStrBytes_utf8_ascii rest (fun x hx => h x (by simp [hx]))
    have hc0 : c ≠ 0 := by omega
    simp only [utf8Str, utf8Char, if_pos (show c < 0x80 by omega)]
    simp only [cStrBytes] at hrest ⊢
    simp only [List.singleton_append, List.takeWhile]
    simp [hc0]
    simpa [ne_eq, decide_not] using hrest

/-- Result of `JS_GetPropertyStr` on a JSON-derived guest value: the property
is absent (undefined), present, or the access threw (property access on null). -/
inductive PropRes where
  | undef
  | val (v : Json)
  | exn
deriving DecidableEq

/-- Object member lookup; a later duplicate key shadows an earlier one, as in
`JSON.parse`. -/
def memberLookup : JsonMembers → List Char → Option Json
  | .nil, _ => none
  | .cons k v t, key =>
    match memberLookup t key with
    | some w => some w
    | none => if k = key then some v else none

/-- `JS_GetPropertyStr` on a JSON-derived value.  Property access on `null`
throws; primitives box to objects that lack the keys the worker reads. -/
def jGetProp : Json → List Char → PropRes
  | .obj m, key =>
    match memberLookup m key with
    | some v => .val v
    | none => .undef
  | .null, _ => .exn
  | _, _ => .undef

mutual

/-- ECMAScript ToString of a JSON-derived value, as `JS_ToCString` returns it. -/
def jsToString : Json → List Char
  | .str s => s
  | .num n => intToDec n
  | .bool true => cs "true"
  | .bool false => cs "false"
  | .null => cs "null"
  | .obj _ => cs "[object Object]"
  | .arr l => arrJoin l
termination_by structural v => v

/-- `Array.prototype.toString`: elements joined with commas, null elements
becoming empty. -/
def arrJoin : JsonList → List Char
  | .nil => []
  | .cons .null .nil => []
  | .cons h .nil => jsToString h
  | .cons .null (.cons h2 t) => ',' :: arrJoin (.cons h2 t)
  | .cons h (.cons h2 t) => jsToString h ++ ',' :: arrJoin (.cons h2 t)
termination_by structural l => l

end

/-- `JS_ToCString`: NULL (none) only when the conversion throws; converting the
undefined sentinel yields the string "undefined". -/
def toCStringRes : PropRes → Option (List Char)
  | .undef => some (cs "undefined")
  | .val v => some (jsToString v)
  | .exn => none

/-- `JS_ToCString (JS_JSONStringify v)` as used for headers and query:
stringifying undefined gives undefined, whose ToCString is "undefined". -/
def stringifyToC : PropRes → Option (List Char)
  | .undef => some (cs "undefined")
  | .val v => some (serJson v)
  | .exn => none

/-- `(n + 2^31) mod 2^32 - 2^31`: the int32 value `JS_ToInt32` stores. -/
def toInt32 (n : Int) : Int := (n + 2 ^ 31) % 2 ^ 32 - 2 ^ 31

/-- `JS_ToInt32` on JSON-shaped values.  Numeric coercion of strings, arrays
and objects is not modelled (0 here); the worker only documents integer
statuses. -/
def jsToInt32 : Json → Int
  | .num n => toInt32 n
  | .bool true => 1
  | _ => 0

/-- A console call the guest made while the handler executed. -/
structure LogCall where
  level : List Char
  message : List Char
deriving DecidableEq

/-- `js_bunbase_log`: the C callback picks the log id from the global
`current_invoke_id`, falling back to "bundle" when it is empty. -/
def js_bunbase_log (cur level message : List Char) : Msg :=
  send_log (if cur = [] then cs "bundle" else cur) level message

/-- Log records emitted for a list of console calls under one current id. -/
def logMsgsOf (cur : List Char) (logs : List LogCall) : List Msg :=
  logs.map fun L => js_bunbase_log cur L.level L.message

/-- Outcome of `JS_Eval` on the request-construction snippet. -/
inductive ReqEvalRes where
  | throw (msg : List Char)
  | ok

/-- Outcome of `JS_Call` on the handler. -/
inductive CallRes where
  | throw (msg : List Char)
  | ok

/-- Outcome of `js_std_await` on the handler result: rejection message, or the
settled value (a guest object, represented by its JSON shape). -/
inductive AwaitRes where
  | reject (msg : List Char)
  | resolve (v : Json)

/-- The guest side of one invocation, all that QuickJS contributes: the
request-snippet evaluation (a function of the snippet source text), the
console calls and outcome of the synchronous handler call, and the console
calls and outcome of awaiting its result. -/
structure GuestOutcome where
  reqEval : List Char → ReqEvalRes
  callLogs : List LogCall
  callRes : CallRes
  awaitLogs : List LogCall
  awaitRes : AwaitRes

/-- Pieces of the `request_code` template of `execute_handler` (the C adjacent
string literals concatenated, braces and quotes escaped). -/
def tpl1 : List Char := cs "(function() \x7b  const urlStr = \x27"

/-- Template after the url literal. -/
def tpl2 : List Char :=
  cs "\x27;  const url = new URL(urlStr, \x27http://localhost\x27);  const query = "

/-- Template after the query splice. -/
def tpl3 : List Char :=
  cs ";  for (const [k, v] of Object.entries(query)) \x7b url.searchParams.set(k, v); \x7d  const headers = "

/-- Template after the headers splice. -/
def tpl4 : List Char := cs ";  const body = \x27"

/-- Template between the two body splices. -/
def tpl5 : List Char := cs "\x27 ? atob(\x27"

/-- Template after the second body splice. -/
def tpl6 : List Char :=
  cs "\x27) : null;  const req = new Request(url.toString(), \x7b method: \x27"

/-- Template after the method splice. -/
def tpl7 : List Char :=
  cs "\x27, headers: headers, body: body \x7d);  return req;\x7d)()"

/-- `snprintf(full_url, sizeof(full_url), "%s", path)` with `full_url[1024]`. -/
def full_url_of (path : List Char) : List Char := path.take 1023

/-- The request-construction snippet `execute_handler` builds with snprintf
into `request_code[8192]`: the path, query JSON, headers JSON, base64 body
(twice) and method are spliced verbatim into the JavaScript template. -/
def request_code (path query_json headers_json body64 method : List Char) : List Char :=
  snprintfTrunc 8192
    (tpl1 ++ full_url_of path ++ tpl2 ++ query_json ++ tpl3 ++ headers_json
      ++ tpl4 ++ body64 ++ tpl5 ++ body64 ++ tpl6 ++ method ++ tpl7)

/-- The headers extraction of `execute_handler`: prefer the stringified
`_headers` map, then the `headers` field, then the headers object itself;
an undefined headers field or a failed stringification keeps "\x7b\x7d". -/
def headersStrOf (result : Json) : List Char :=
  match jGetProp result (cs "headers") with
  | .undef => cs "\x7b\x7d"
  | .exn => cs "\x7b\x7d"
  | .val hv =>
    match jGetProp hv (cs "_headers") with
    | .val hm => serJson hm
    | .exn => cs "\x7b\x7d"
    | .undef =>
      match jGetProp hv (cs "headers") with
      | .val h2 => serJson h2
      | .exn => cs "\x7b\x7d"
      | .undef => serJson hv

/-- The body extraction of `execute_handler`: when the `body` field is a
string, the C reads it with `JS_ToCString` (UTF-8, then `strlen` stops at the
first NUL) and base64-encodes it with the bounded loop; anything else gives
an empty body. -/
def bodyEncodedOf (result : Json) : List Char :=
  match jGetProp result (cs "body") with
  | .val (.str s) => b64bounded (cStrBytes (utf8Str (s.map Char.toNat))) 0
  | _ => []

/-- The status extraction of `execute_handler`: 200 when the field is
undefined, otherwise the JS_ToInt32 value.  When the property lookup threw
(awaited value `null`), the exception value is not undefined, so the C still
calls `JS_ToInt32`, which fails and stores 0. -/
def statusOf (result : Json) : Int :=
  match jGetProp result (cs "status") with
  | .val sv => jsToInt32 sv
  | .undef => 200
  | .exn => 0

/-- Result of one `execute_handler` call: the records it sent, the final value
of the global `current_invoke_id`, and the C return code. -/
structure ExecResult where
  msgs : List Msg
  cur : List Char
  ret : Int
deriving DecidableEq

/-- `execute_handler` from main.c.  `cur0` is the value of the global
`current_invoke_id` on entry (the handler-not-loaded path returns before
touching it); on every other exit path the global is cleared. -/
def execute_handler (handlerLoaded : Bool) (cur0 : List Char) (g : GuestOutcome)
    (invoke_id method path headers_json query_json body_base64 : List Char) : ExecResult :=
  if ¬ handlerLoaded then
    ⟨[send_error invoke_id (cs "Handler not loaded") (cs "HANDLER_NOT_LOADED")], cur0, -1⟩
  else
    let cur := invoke_id.take 63
    match g.reqEval (request_code path query_json headers_json body_base64 method) with
    | .throw m => ⟨[send_error invoke_id m (cs "REQUEST_CREATION_ERROR")], [], -1⟩
    | .ok =>
      let callMsgs := logMsgsOf cur g.callLogs
      match g.callRes with
      | .throw m => ⟨callMsgs ++ [send_error invoke_id m (cs "HANDLER_ERROR")], [], -1⟩
      | .ok =>
        let awaitMsgs := logMsgsOf cur g.awaitLogs
        match g.awaitRes with
        | .reject m =>
          ⟨callMsgs ++ awaitMsgs ++ [send_error invoke_id m (cs "HANDLER_ERROR")], [], -1⟩
        | .resolve v =>
          ⟨callMsgs ++ awaitMsgs
            ++ [send_response invoke_id (statusOf v) (headersStrOf v) (bodyEncodedOf v)], [], 0⟩

/-- `JS_ParseJSON` of one stripped stdin line (trailing whitespace allowed). -/
def parseLine (line : List Char) : Option Json :=
  match parseValue (line.length + 1) line with
  | some (v, rest) => if skipWs rest = [] then some v else none
  | none => none

/-- One iteration of the `process_messages` loop: skip empty lines, drop
unparsable lines (stderr only), ignore non-invoke types, report a missing
payload, otherwise extract the payload fields and run `execute_handler`. -/
def processLine (handlerLoaded : Bool) (g : GuestOutcome) (line : List Char) : List Msg :=
  if line = [] then []
  else
    match parseLine line with
    | none => []
    | some msgv =>
      match toCStringRes (jGetProp msgv (cs "type")) with
      | none => []
      | some ts =>
        if ts = cs "invoke" then
          let invoke_id := (toCStringRes (jGetProp msgv (cs "id"))).getD (cs "unknown")
          match jGetProp msgv (cs "payload") with
          | .undef =>
            [send_error invoke_id (cs "Missing payload in invoke message")
              (cs "INVALID_MESSAGE")]
          | .exn => []
          | .val p =>
            let method := (toCStringRes (jGetProp p (cs "method"))).getD (cs "GET")
            let path := (toCStringRes (jGetProp p (cs "path"))).getD (cs "/")
            let headers_json := (stringifyToC (jGetProp p (cs "headers"))).getD (cs "\x7b\x7d")
            let query_json := (stringifyToC (jGetProp p (cs "query"))).getD (cs "\x7b\x7d")
            let body_str := (toCStringRes (jGetProp p (cs "body"))).getD (cs "")
            (execute_handler handlerLoaded [] g invoke_id method path headers_json
              query_json body_str).msgs
        else []

/-- The `process_messages` loop over the stripped stdin lines; `gs k` is the
guest behaviour for the k-th line. -/
def process_messages (handlerLoaded : Bool) (gs : Nat → GuestOutcome) :
    List (List Char) → Nat → List Msg
  | [], _ => []
  | line :: rest, k =>
    processLine handlerLoaded (gs k) line ++ process_messages handlerLoaded gs rest (k + 1)

/-- A record that terminates an invocation: a response or an error. -/
def respOrErr (m : Msg) : Bool := m.type = cs "response" || m.type = cs "error"

theorem filter_respOrErr_logs (cur : List Char) (logs : List LogCall) :
    (logMsgsOf cur logs).filter respOrErr = [] := by
  induction logs with
  | nil => rfl
  | cons L rest ih =>
    have : respOrErr (js_bunbase_log cur L.level L.message) = false := by
      simp [js_bunbase_log, send_log, send_message, respOrErr, cs]
    simp [logMsgsOf, List.filter, this] at ih ⊢
    simpa [logMsgsOf] using ih

theorem filter_respOrErr_error (id m c : List Char) :
    (List.filter respOrErr [send_error id m c]).map Msg.id = [id] := by
  simp [send_error, send_message, respOrErr, List.filter, cs]

theorem filter_respOrErr_response (id : List Char) (st : Int) (h b : List Char) :
    (List.filter respOrErr [send_response id st h b]).map Msg.id = [id] := by
  simp [send_response, send_message, respOrErr, List.filter, cs]

/-- Every exit path of `execute_handler` emits exactly one response-or-error
record, and it carries the `invoke_id` argument. -/
theorem execute_handler_one_terminal (handlerLoaded : Bool) (cur0 : List Char)
    (g : GuestOutcome) (invoke_id method path headers_json query_json body_base64 : List Char) :
    ((execute_handler handlerLoaded cur0 g invoke_id method path headers_json query_json
        body_base64).msgs.filter respOrErr).map Msg.id = [invoke_id] := by
  unfold execute_handler
  by_cases hl : handlerLoaded
  · simp only [hl, not_true_eq_false, if_false]
    cases hre : g.reqEval (request_code path query_json headers_json body_base64 method) with
    | throw m => simp [filter_respOrErr_error]
    | ok =>
      cases hc : g.callRes with
      | throw m =>
        simp [List.filter_append, filter_respOrErr_logs, filter_respOrErr_error]
      | ok =>
        cases ha : g.awaitRes with
        | reject m =>
          simp [List.filter_append, filter_respOrErr_logs, filter_respOrErr_error]
        | resolve v =>
          simp [List.filter_append, filter_respOrErr_logs, filter_respOrErr_response]
  · simp only [hl, not_false_eq_true, if_true]
    simp [filter_respOrErr_error]

/-- C1: for every stdin record of type `invoke` the worker consumes — whether
its payload is present or missing — `processLine` emits exactly one record
that is a response or an error, and that record carries the record's id; it
never emits both for one invoke. -/
theorem c1_exactly_one_response_or_error (handlerLoaded : Bool) (g : GuestOutcome)
    (line : List Char) (v : Json) (idStr : List Char)
    (hne : line ≠ [])
    (hparse : parseLine line = some v)
    (htype : toCStringRes (jGetProp v (cs "type")) = some (cs "invoke"))
    (hid : jGetProp v (cs "id") = .val (.str idStr)) :
    ((processLine handlerLoaded g line).filter respOrErr).map Msg.id = [idStr] := by
  unfold processLine
  rw [if_neg hne, hparse]
  simp only [htype, if_pos rfl]
  rw [hid]
  simp only [toCStringRes, Option.getD_some]
  rw [show jsToString (Json.str idStr) = idStr from by simp [jsToString]]
  have hobj : ∃ m, v = .obj m := by
    cases v with
    | obj m => exact ⟨m, rfl⟩
    | null => simp [jGetProp] at hid
    | str s => simp [jGetProp] at hid
    | num n => simp [jGetProp] at hid
    | bool b => simp [jGetProp] at hid
    | arr l => simp [jGetProp] at hid
  obtain ⟨m, rfl⟩ := hobj
  cases hp : jGetProp (Json.obj m) (cs "payload") with
  | undef => exact filter_respOrErr_error idStr _ _
  | exn => simp [jGetProp] at hp; cases h2 : memberLookup m (cs "payload") <;> simp [h2] at hp
  | val p => exact execute_handler_one_terminal _ _ _ _ _ _ _ _ _

/-- A guest behaviour that answers without logging. -/
def idleOracle : GuestOutcome :=
  ⟨fun _ => .ok, [], .ok, [], .resolve .null⟩

/-- The JSON value of the sample invoke line used by the C1 witness. -/
def c1LineJson : Json :=
  .obj (.cons (cs "id") (.str (cs "a"))
    (.cons (cs "type") (.str (cs "invoke"))
      (.cons (cs "payload")
        (.obj (.cons (cs "method") (.str (cs "GET"))
          (.cons (cs "path") (.str (cs "/x"))
            (.cons (cs "headers") (.obj .nil)
              (.cons (cs "query") (.obj .nil)
                (.cons (cs "body") (.str []) .nil))))))
        .nil)))

/-- Witness: C1 applied to a concrete well-formed invoke line. -/
theorem c1_witness :
    ((processLine true idleOracle
        (cs "\x7b\"id\":\"a\",\"type\":\"invoke\",\"payload\":\x7b\"method\":\"GET\",\"path\":\"/x\",\"headers\":\x7b\x7d,\"query\":\x7b\x7d,\"body\":\"\"\x7d\x7d")).filter
        respOrErr).map Msg.id = [cs "a"] :=
  c1_exactly_one_response_or_error true idleOracle _ c1LineJson (cs "a")
    (by decide) (by decide) (by decide) (by decide)

/-! ### The shape of `execute_handler` output, shared by several claims -/

/-- The record list `execute_handler` emits, by guest outcome (main.c:666-841). -/
theorem execute_handler_msgs (cur0 : List Char) (g : GuestOutcome)
    (invoke_id method path hj qj b64 : List Char) :
    (execute_handler true cur0 g invoke_id method path hj qj b64).msgs
      = match g.reqEval (request_code path qj hj b64 method) with
        | .throw m => [send_error invoke_id m (cs "REQUEST_CREATION_ERROR")]
        | .ok =>
          match g.callRes with
          | .throw m => logMsgsOf (invoke_id.take 63) g.callLogs
              ++ [send_error invoke_id m (cs "HANDLER_ERROR")]
          | .ok =>
            match g.awaitRes with
            | .reject m => logMsgsOf (invoke_id.take 63) g.callLogs
                ++ logMsgsOf (invoke_id.take 63) g.awaitLogs
                ++ [send_error invoke_id m (cs "HANDLER_ERROR")]
            | .resolve v => logMsgsOf (invoke_id.take 63) g.callLogs
                ++ logMsgsOf (invoke_id.take 63) g.awaitLogs
                ++ [send_response invoke_id (statusOf v) (headersStrOf v) (bodyEncodedOf v)] := by
  unfold execute_handler
  rw [if_neg (by simp)]
  cases g.reqEval (request_code path qj hj b64 method) with
  | throw m => rfl
  | ok =>
    cases g.callRes with
    | throw m => rfl
    | ok =>
      cases g.awaitRes with
      | reject m => rfl
      | resolve v => rfl

/-- Every record `logMsgsOf` produces is a log record whose id is the current
invoke id, falling back to "bundle" when that is empty. -/
theorem logMsgsOf_id_type {cur : List Char} {logs : List LogCall} {mg : Msg}
    (h : mg ∈ logMsgsOf cur logs) :
    mg.type = cs "log" ∧ mg.id = (if cur = [] then cs "bundle" else cur) := by
  simp only [logMsgsOf, List.mem_map] at h
  obtain ⟨L, hL, rfl⟩ := h
  exact ⟨rfl, rfl⟩

/-! ### C9: log-record ids -/

/-- A guest behaviour that logs once during the synchronous handler call. -/
def logOracle : GuestOutcome :=
  ⟨fun _ => .ok, [⟨cs "info", cs "hi"⟩], .ok, [], .resolve .null⟩

/-- C9 counterexample: an invoke whose id is the empty string is an invocation
in progress, yet the log record the guest console call produces carries the id
"bundle", not the invoke id: `js_bunbase_log` falls back to "bundle" whenever
`current_invoke_id` is empty, which also happens for an empty invoke id. -/
theorem c9_counterexample :
    (execute_handler true [] logOracle [] (cs "GET") (cs "/") (cs "\x7b\x7d")
        (cs "\x7b\x7d") []).msgs
      = [send_log (cs "bundle") (cs "info") (cs "hi"),
         send_response [] 0 (cs "\x7b\x7d") []]
    ∧ cs "bundle" ≠ ([] : List Char) := by
  constructor
  · decide
  · decide

/-- C9 (amended): a log record produced while a handler executes carries the
invoke id provided that id is non-empty and at most 63 bytes (the
`current_invoke_id[64]` strncpy buffer); and with `current_invoke_id` empty —
outside any invocation — every log record carries the id "bundle". -/
theorem c9_log_id_amended (cur0 invoke_id method path hj qj b64 : List Char)
    (g : GuestOutcome) (hne : invoke_id ≠ []) (hlen : invoke_id.length ≤ 63) :
    (∀ mg ∈ (execute_handler true cur0 g invoke_id method path hj qj b64).msgs,
        mg.type = cs "log" → mg.id = invoke_id)
    ∧ (∀ level message, (js_bunbase_log [] level message).id = cs "bundle") := by
  have htake : invoke_id.take 63 = invoke_id := List.take_of_length_le hlen
  constructor
  · intro mg hmem htype
    rw [execute_handler_msgs] at hmem
    cases hre : g.reqEval (request_code path qj hj b64 method) with
    | throw m =>
      rw [hre] at hmem
      simp only [List.mem_singleton] at hmem
      rw [hmem] at htype
      exact absurd (show cs "error" = cs "log" from htype) (by decide)
    | ok =>
      rw [hre] at hmem
      cases hc : g.callRes with
      | throw m =>
        rw [hc] at hmem
        simp only [List.mem_append, List.mem_singleton] at hmem
        rcases hmem with h | h
        · rw [htake] at h
          rw [(logMsgsOf_id_type h).2, if_neg hne]
        · rw [h] at htype
          exact absurd (show cs "error" = cs "log" from htype) (by decide)
      | ok =>
        rw [hc] at hmem
        cases ha : g.awaitRes with
        | reject m =>
          rw [ha] at hmem
          simp only [List.mem_append, List.mem_singleton] at hmem
          rcases hmem with (h | h) | h
          · rw [htake] at h
            rw [(logMsgsOf_id_type h).2, if_neg hne]
          · rw [htake] at h
            rw [(logMsgsOf_id_type h).2, if_neg hne]
          · rw [h] at htype
            exact absurd (show cs "error" = cs "log" from htype) (by decide)
        | resolve v =>
          rw [ha] at hmem
          simp only [List.mem_append, List.mem_singleton] at hmem
          rcases hmem with (h | h) | h
          · rw [htake] at h
            rw [(logMsgsOf_id_type h).2, if_neg hne]
          · rw [htake] at h
            rw [(logMsgsOf_id_type h).2, if_neg hne]
          · rw [h] at htype
            exact absurd (show cs "response" = cs "log" from htype) (by decide)
  · intro level message
    rfl

/-- Witness: the amended C9 theorem at a one-log invocation with id "z". -/
theorem c9_witness :
    (∀ mg ∈ (execute_handler true [] logOracle (cs "z") (cs "GET") (cs "/x")
        (cs "\x7b\x7d") (cs "\x7b\x7d") []).msgs,
        mg.type = cs "log" → mg.id = cs "z")
    ∧ (∀ level message, (js_bunbase_log [] level message).id = cs "bundle") :=
  c9_log_id_amended [] (cs "z") (cs "GET") (cs "/x") (cs "\x7b\x7d") (cs "\x7b\x7d") []
    logOracle (by decide) (by decide)

/-! ### C10: missing payload -/

/-- C10 counterexample: an invoke record with no id and no payload is answered
with an error record whose id is "undefined" — `JS_ToCString` of the undefined
id yields the string "undefined", so the C fallback `"unknown"` (taken only
when `JS_ToCString` returns NULL) is dead code. -/
theorem c10_counterexample :
    processLine true idleOracle (cs "\x7b\"type\":\"invoke\"\x7d")
      = [send_error (cs "undefined") (cs "Missing payload in invoke message")
          (cs "INVALID_MESSAGE")]
    ∧ cs "undefined" ≠ cs "unknown" := by
  constructor
  · decide
  · decide

/-- C10 (amended): an invoke record whose payload field is absent makes the
worker emit exactly one record — the INVALID_MESSAGE error with message
"Missing payload in invoke message" — carrying the record id when present and
"undefined" (not "unknown") when absent; the handler is never consulted (the
result is independent of the guest behaviour), no response is emitted, and
`process_messages` continues with the subsequent lines. -/
theorem c10_missing_payload_amended (handlerLoaded : Bool) (gs : Nat → GuestOutcome)
    (line : List Char) (m : JsonMembers) (rest : List (List Char)) (k : Nat)
    (hne : line ≠ []) (hparse : parseLine line = some (.obj m))
    (htype : memberLookup m (cs "type") = some (.str (cs "invoke")))
    (hpay : memberLookup m (cs "payload") = none) :
    process_messages handlerLoaded gs (line :: rest) k
      = send_error
          (match memberLookup m (cs "id") with
            | some j => jsToString j
            | none => cs "undefined")
          (cs "Missing payload in invoke message") (cs "INVALID_MESSAGE")
        :: process_messages handlerLoaded gs rest (k + 1)
    ∧ ∀ mg ∈ processLine handlerLoaded (gs k) line, mg.type = cs "error" := by
  have hpl : processLine handlerLoaded (gs k) line
      = [send_error
          (match memberLookup m (cs "id") with
            | some j => jsToString j
            | none => cs "undefined")
          (cs "Missing payload in invoke message") (cs "INVALID_MESSAGE")] := by
    unfold processLine
    rw [if_neg hne, hparse]
    have hty2 : toCStringRes (jGetProp (Json.obj m) (cs "type")) = some (cs "invoke") := by
      simp [jGetProp, htype, toCStringRes, jsToString]
    simp only [hty2, if_pos rfl]
    have hpay2 : jGetProp (Json.obj m) (cs "payload") = .undef := by
      simp [jGetProp, hpay]
    simp only [hpay2]
    cases hid : memberLookup m (cs "id") with
    | none => simp [jGetProp, hid, toCStringRes]
    | some j => simp [jGetProp, hid, toCStringRes]
  refine ⟨?_, ?_⟩
  · show processLine handlerLoaded (gs k) line
        ++ process_messages handlerLoaded gs rest (k + 1) = _
    rw [hpl]
    rfl
  · intro mg hmg
    rw [hpl] at hmg
    simp only [List.mem_singleton] at hmg
    rw [hmg]
    rfl

/-- Witness: the amended C10 theorem on the concrete line with id "z" and no
payload, followed by one more (empty) line. -/
theorem c10_witness :
    process_messages true (fun _ => idleOracle)
        [cs "\x7b\"id\":\"z\",\"type\":\"invoke\"\x7d", []] 0
      = send_error (cs "z") (cs "Missing payload in invoke message")
          (cs "INVALID_MESSAGE")
        :: process_messages true (fun _ => idleOracle) [[]] 1
    ∧ ∀ mg ∈ processLine true idleOracle (cs "\x7b\"id\":\"z\",\"type\":\"invoke\"\x7d"),
        mg.type = cs "error" := by
  have h := c10_missing_payload_amended true (fun _ => idleOracle)
    (cs "\x7b\"id\":\"z\",\"type\":\"invoke\"\x7d")
    (.cons (cs "id") (.str (cs "z")) (.cons (cs "type") (.str (cs "invoke")) .nil))
    [[]] 0 (by decide) (by decide) (by decide) (by decide)
  refine ⟨?_, h.2⟩
  rw [h.1]
  rfl

/-! ### C7: request construction and its injection caveat -/

/-- One-character escape sequences of a single-quoted JavaScript string
literal, mapped to the text they denote: the single-character escapes
n, t, r, b, f, v, 0, a backslash-newline line continuation (empty), and the
identity escape for every other character (so an escaped quote or backslash
denotes itself). -/
def jsEscChar (e : Char) : List Char :=
  if e = 'n' then ['\n']
  else if e = 't' then ['\t']
  else if e = 'r' then ['\r']
  else if e = 'b' then ['\x08']
  else if e = 'f' then ['\x0c']
  else if e = 'v' then ['\x0b']
  else if e = '0' then ['\x00']
  else if e = '\n' then []
  else if e = '\r' then []
  else [e]

/-- The guest lexer reading a single-quoted string literal, positioned just
after the opening quote: a backslash consumes the following character as an
escape sequence (hex and unicode escapes are left unmodelled: `none`), an
unescaped single quote closes the literal, and a bare line terminator or the
end of the source is a SyntaxError (`none`). -/
def jsStrLit : List Char → Option (List Char)
  | [] => none
  | c :: rest =>
    if c = '\x27' then some []
    else if c = '\n' ∨ c = '\r' then none
    else if c = '\\' then
      match rest with
      | [] => none
      | e :: rest2 =>
        if e = 'x' ∨ e = 'u' then none
        else (jsStrLit rest2).map fun l => jsEscChar e ++ l
    else (jsStrLit rest).map fun l => c :: l
termination_by structural l => l

/-- The `urlStr` string literal of the request snippet as the guest lexer
reads it, starting right after the fixed opening template. -/
def urlLiteralOf (code : List Char) : Option (List Char) :=
  jsStrLit (code.drop tpl1.length)

/-- Splice-safe characters: nothing that closes the single-quoted url literal
(quote), escapes past its closing quote (backslash) or breaks the one-line
snippet (line terminators). -/
def spliceSafeChar (c : Char) : Bool :=
  c != '\x27' && c != '\\' && c != '\n' && c != '\r'

/-- A guest behaviour whose request-snippet evaluation throws. -/
def throwOracle : GuestOutcome :=
  ⟨fun _ => .throw (cs "boom"), [], .ok, [], .resolve .null⟩

theorem jsStrLit_append_safe : ∀ l1 l2 : List Char, l1.all spliceSafeChar = true →
    jsStrLit (l1 ++ l2) = (jsStrLit l2).map fun l => l1 ++ l
  | [], l2, _ => by
    cases h : jsStrLit l2 <;> simp [h]
  | c :: t, l2, h => by
    have hct : spliceSafeChar c = true ∧ t.all spliceSafeChar = true := by
      simpa [List.all_cons] using h
    have hc : ((c ≠ '\x27' ∧ c ≠ '\\') ∧ c ≠ '\n') ∧ c ≠ '\r' := by
      simpa [spliceSafeChar, Bool.and_eq_true, bne_iff_ne] using hct.1
    obtain ⟨⟨⟨h1, h2⟩, h3⟩, h4⟩ := hc
    simp only [List.cons_append]
    rw [show jsStrLit (c :: (t ++ l2)) = (jsStrLit (t ++ l2)).map fun l => c :: l from by
      conv_lhs => rw [jsStrLit.eq_def]
      simp [h1, h2, h3, h4]]
    rw [jsStrLit_append_safe t l2 hct.2]
    cases hl : jsStrLit l2 <;> simp [hl]

theorem jsStrLit_tpl2 (l : List Char) : jsStrLit (tpl2 ++ l) = some [] := rfl

/-- C7 counterexample: a payload path containing a single quote closes the
`urlStr` string literal early (path `a\x27b` leaves the literal `a`), and a
path ending in a backslash escapes past the template closing quote, so the
literal swallows following template text — in neither case does the guest
observe the payload path as the URL string. -/
theorem c7_counterexample :
    urlLiteralOf (request_code (cs "a\x27b") (cs "\x7b\x7d") (cs "\x7b\x7d") [] (cs "GET"))
      = some (cs "a")
    ∧ cs "a" ≠ cs "a\x27b"
    ∧ urlLiteralOf (request_code (cs "a\\") (cs "\x7b\x7d") (cs "\x7b\x7d") [] (cs "GET"))
        ≠ some (cs "a\\") := by
  refine ⟨by decide, by decide, by decide⟩

/-- C7 (amended): the dispatcher builds the Request by splicing path, query
JSON, headers JSON, base64 body (twice, once in the emptiness test and once in
the `atob` call) and method verbatim into the JavaScript template — so the
claimed `new URL(path, \x27http://localhost\x27)` construction is guaranteed only
for splice-safe inputs: when the path contains no single quote, no backslash
and no line terminator, fits the 1024-byte url buffer and the snippet fits the
8192-byte buffer, the snippet is the exact template concatenation and the
string literal the guest lexer reads as `urlStr` is the path.  If snippet
evaluation throws, the worker emits exactly one error record, with code
REQUEST_CREATION_ERROR and the exception text as message, emits no response
and clears `current_invoke_id`. -/
theorem c7_request_construction_amended (cur0 invoke_id path qj hj b64 method em : List Char)
    (g : GuestOutcome)
    (hsafe : path.all spliceSafeChar = true)
    (hplen : path.length ≤ 1023)
    (hfit : (tpl1 ++ path ++ tpl2 ++ qj ++ tpl3 ++ hj ++ tpl4 ++ b64 ++ tpl5 ++ b64
        ++ tpl6 ++ method ++ tpl7).length ≤ 8191)
    (hthrow : g.reqEval (request_code path qj hj b64 method) = .throw em) :
    request_code path qj hj b64 method
      = tpl1 ++ path ++ tpl2 ++ qj ++ tpl3 ++ hj ++ tpl4 ++ b64 ++ tpl5 ++ b64
          ++ tpl6 ++ method ++ tpl7
    ∧ urlLiteralOf (request_code path qj hj b64 method) = some path
    ∧ execute_handler true cur0 g invoke_id method path hj qj b64
        = ⟨[send_error invoke_id em (cs "REQUEST_CREATION_ERROR")], [], -1⟩ := by
  have h1 : request_code path qj hj b64 method
      = tpl1 ++ path ++ tpl2 ++ qj ++ tpl3 ++ hj ++ tpl4 ++ b64 ++ tpl5 ++ b64
          ++ tpl6 ++ method ++ tpl7 := by
    unfold request_code snprintfTrunc full_url_of
    rw [List.take_of_length_le hplen]
    exact List.take_of_length_le (by omega)
  have h2 : urlLiteralOf (tpl1 ++ path ++ tpl2 ++ qj ++ tpl3 ++ hj ++ tpl4 ++ b64 ++ tpl5
      ++ b64 ++ tpl6 ++ method ++ tpl7) = some path := by
    unfold urlLiteralOf
    simp only [List.append_assoc]
    rw [List.drop_left]
    rw [jsStrLit_append_safe path _ hsafe, jsStrLit_tpl2]
    simp
  refine ⟨h1, by rw [h1]; exact h2, ?_⟩
  unfold execute_handler
  rw [if_neg (by simp)]
  simp [hthrow]

set_option maxRecDepth 100000 in
/-- Witness: the amended C7 theorem at concrete splice-safe payload fields and
a throwing snippet evaluation. -/
theorem c7_witness :
    request_code (cs "/x") (cs "\x7b\x7d") (cs "\x7b\x7d") (cs "aGk=") (cs "GET")
      = tpl1 ++ cs "/x" ++ tpl2 ++ cs "\x7b\x7d" ++ tpl3 ++ cs "\x7b\x7d" ++ tpl4
          ++ cs "aGk=" ++ tpl5 ++ cs "aGk=" ++ tpl6 ++ cs "GET" ++ tpl7
    ∧ urlLiteralOf (request_code (cs "/x") (cs "\x7b\x7d") (cs "\x7b\x7d") (cs "aGk=")
        (cs "GET")) = some (cs "/x")
    ∧ execute_handler true [] throwOracle (cs "w") (cs "GET") (cs "/x") (cs "\x7b\x7d")
        (cs "\x7b\x7d") (cs "aGk=")
        = ⟨[send_error (cs "w") (cs "boom") (cs "REQUEST_CREATION_ERROR")], [], -1⟩ :=
  c7_request_construction_amended [] (cs "w") (cs "/x") (cs "\x7b\x7d") (cs "\x7b\x7d")
    (cs "aGk=") (cs "GET") (cs "boom") throwOracle (by decide) (by decide) (by decide) rfl

/-! ### C3: base64 body round-trip -/

theorem toNat_ofNat_ascii_fin : ∀ c : Fin 128, (Char.ofNat c.1).toNat = c.1 := by decide

theorem toNat_ofNat_ascii {c : Nat} (h : c < 128) : (Char.ofNat c).toNat = c :=
  toNat_ofNat_ascii_fin ⟨c, h⟩

theorem map_toNat_ofNat : ∀ b : List Nat, (∀ c ∈ b, c < 128) →
    (b.map Char.ofNat).map Char.toNat = b
  | [], _ => rfl
  | c :: t, h => by
    simp only [List.map_cons]
    rw [toNat_ofNat_ascii (h c (by simp)),
      map_toNat_ofNat t (fun x hx => h x (by simp [hx]))]

/-- A guest behaviour that answers with an object whose body field is the
given byte string, read back as a guest string. -/
def echoOracle (b : List Nat) : GuestOutcome :=
  ⟨fun _ => .ok, [], .ok, [],
    .resolve (.obj (.cons (cs "body") (.str (b.map Char.ofNat)) .nil))⟩

/-- C3 counterexample: the round-trip fails for byte strings outside
non-NUL ASCII.  A NUL byte vanishes (the C reads the guest string with
`JS_ToCString` and `strlen`), so echoing the one-byte body 0x00 yields an
empty response body, which decodes to the empty string; and a byte above 0x7F
comes back UTF-8 encoded, so echoing 0xFF yields a body that decodes to the
two bytes 0xC3 0xBF. -/
theorem c3_counterexample :
    bodyEncodedOf (.obj (.cons (cs "body") (.str ([(0 : Nat)].map Char.ofNat)) .nil)) = []
    ∧ atobPolyfill [] = .ok []
    ∧ ([] : List Nat) ≠ [0]
    ∧ bodyEncodedOf (.obj (.cons (cs "body") (.str ([(255 : Nat)].map Char.ofNat)) .nil))
        = cs "w78="
    ∧ atobPolyfill (cs "w78=") = .ok [195, 191]
    ∧ [(195 : Nat), 191] ≠ [255] := by
  refine ⟨by decide, by rfl, by decide, by decide, by rfl, by decide⟩

/-- C3 (amended): for byte strings of non-NUL ASCII bytes (1..127) of length
at most 12285, the guest observes the invoke body via the atob polyfill as
exactly those bytes, and a handler that echoes the body back produces a
response record whose body field is exactly the standard base64 encoding of
the bytes (which the polyfill decodes back to them). -/
theorem c3_base64_roundtrip_amended (b : List Nat)
    (hb : ∀ c ∈ b, 0 < c ∧ c < 128) (hlen : b.length ≤ 12285) :
    atobPolyfill (b64groups b) = .ok b
    ∧ bodyEncodedOf (.obj (.cons (cs "body") (.str (b.map Char.ofNat)) .nil)) = b64groups b
    ∧ ∀ cur0 invoke_id method path hj qj b64 : List Char,
        (execute_handler true cur0 (echoOracle b) invoke_id method path hj qj b64).msgs
          = [send_response invoke_id 200 (cs "\x7b\x7d") (b64groups b)] := by
  have henc : bodyEncodedOf (.obj (.cons (cs "body") (.str (b.map Char.ofNat)) .nil))
      = b64groups b := by
    show b64bounded (cStrBytes (utf8Str ((b.map Char.ofNat).map Char.toNat))) 0
        = b64groups b
    rw [map_toNat_ofNat b (fun c hc => (hb c hc).2)]
    rw [cStrBytes_utf8_ascii b hb]
    exact b64bounded_eq b 0 (by omega)
  refine ⟨atob_b64groups b (fun c hc => by have := hb c hc; omega), henc, ?_⟩
  intro cur0 invoke_id method path hj qj b64
  show [send_response invoke_id
        (statusOf (.obj (.cons (cs "body") (.str (b.map Char.ofNat)) .nil)))
        (headersStrOf (.obj (.cons (cs "body") (.str (b.map Char.ofNat)) .nil)))
        (bodyEncodedOf (.obj (.cons (cs "body") (.str (b.map Char.ofNat)) .nil)))]
      = [send_response invoke_id 200 (cs "\x7b\x7d") (b64groups b)]
  rw [henc]
  rfl

/-- Witness: the amended C3 theorem on the two ASCII bytes of "hi". -/
theorem c3_witness :
    atobPolyfill (b64groups [104, 105]) = .ok [104, 105]
    ∧ bodyEncodedOf (.obj (.cons (cs "body") (.str ([(104 : Nat), 105].map Char.ofNat)) .nil))
        = b64groups [104, 105]
    ∧ ∀ cur0 invoke_id method path hj qj b64 : List Char,
        (execute_handler true cur0 (echoOracle [104, 105]) invoke_id method path hj qj
            b64).msgs
          = [send_response invoke_id 200 (cs "\x7b\x7d") (b64groups [104, 105])] :=
  c3_base64_roundtrip_amended [104, 105] (by decide) (by decide)

/-! ### C8: the bounded body encoder truncates long bodies -/

/-- C8: the response body is NOT always the full base64 encoding of the body
string — the encoder loop of `execute_handler` writes into
`encoded_body[16384]` and stops once the output cursor reaches 16380, so a
12288-byte body (full encoding 16384 characters) is silently truncated.  The
status and headers extraction behave as claimed; the body clause fails. -/
theorem c8_body_truncation_bug :
    (b64groups (List.replicate 12288 97)).length = 16384
    ∧ (bodyEncodedOf (.obj (.cons (cs "body")
        (.str (List.replicate 12288 (Char.ofNat 97))) .nil))).length ≤ 16380
    ∧ bodyEncodedOf (.obj (.cons (cs "body")
        (.str (List.replicate 12288 (Char.ofNat 97))) .nil))
      ≠ b64groups (List.replicate 12288 97) := by
  have h1 : (b64groups (List.replicate 12288 97)).length = 16384 := by
    have harith : (4 : Nat) * ((12288 + 2) / 3) = 16384 := by decide
    rw [b64groups_len, List.length_replicate, harith]
  have hbody : bodyEncodedOf (.obj (.cons (cs "body")
      (.str (List.replicate 12288 (Char.ofNat 97))) .nil))
      = b64bounded (List.replicate 12288 97) 0 := by
    show b64bounded
        (cStrBytes (utf8Str ((List.replicate 12288 (Char.ofNat 97)).map Char.toNat))) 0
      = b64bounded (List.replicate 12288 97) 0
    rw [List.map_replicate]
    rw [show (Char.ofNat 97).toNat = 97 from rfl]
    rw [cStrBytes_utf8_ascii _ (fun c hc => by
      have := List.eq_of_mem_replicate hc
      omega)]
  have h3 : (b64bounded (List.replicate 12288 97) 0).length ≤ 16380 := by
    have := b64bounded_len_le (List.replicate 12288 97) 0 (by norm_num) (by norm_num)
    omega
  have hlen2 : (bodyEncodedOf (.obj (.cons (cs "body")
      (.str (List.replicate 12288 (Char.ofNat 97))) .nil))).length ≤ 16380 := by
    rw [hbody]
    exact h3
  refine ⟨h1, hlen2, fun h => ?_⟩
  have hc := congrArg List.length h
  rw [h1] at hc
  omega

/-! ### C4: no stdin line-length limit exists in the code -/

/-- The invoke record of the oversized-line scenario. -/
def c4LineJson : Json :=
  .obj (.cons (cs "id") (.str (cs "b"))
    (.cons (cs "type") (.str (cs "invoke"))
      (.cons (cs "payload")
        (.obj (.cons (cs "method") (.str (cs "GET"))
          (.cons (cs "path") (.str (cs "/x"))
            (.cons (cs "headers") (.obj .nil)
              (.cons (cs "query") (.obj .nil)
                (.cons (cs "body") (.str []) .nil))))))
        .nil)))

/-- A stdin line longer than 1 MiB: a megabyte of leading whitespace followed
by a well-formed invoke record. -/
def c4BigLine : List Char := List.replicate 1048576 ' ' ++ serJson c4LineJson

theorem skipWs_pad (n : Nat) (l : List Char) :
    skipWs (List.replicate n ' ' ++ l) = skipWs l := by
  induction n with
  | zero => rfl
  | succ k ih =>
    rw [List.replicate_succ, List.cons_append]
    have hstep : skipWs (' ' :: (List.replicate k ' ' ++ l))
        = skipWs (List.replicate k ' ' ++ l) := by
      simp [skipWs, List.dropWhile_cons, isWsChar]
    rw [hstep, ih]

theorem parseValue_pad (fuel n : Nat) (l : List Char) :
    parseValue (fuel + 1) (List.replicate n ' ' ++ l) = parseValue (fuel + 1) l := by
  conv_lhs => rw [parseValue.eq_2]
  conv_rhs => rw [parseValue.eq_2]
  rw [skipWs_pad]

theorem parseLine_of_parseValue {line : List Char} {v : Json}
    (h : parseValue (line.length + 1) line = some (v, [])) :
    parseLine line = some v := by
  unfold parseLine
  rw [h]
  rfl

/-- Two non-empty lines that parse alike are processed alike. -/
theorem processLine_congr (handlerLoaded : Bool) (g : GuestOutcome)
    {l1 l2 : List Char} (h1 : l1 ≠ []) (h2 : l2 ≠ [])
    (hp : parseLine l1 = parseLine l2) :
    processLine handlerLoaded g l1 = processLine handlerLoaded g l2 := by
  unfold processLine
  rw [if_neg h1, if_neg h2, hp]

/-- C4: the code has no 1 MiB line limit: `MAX_LINE_LENGTH` (main.c:24) is
referenced nowhere, lines are read with unbounded `getline`, and a line longer
than 1 MiB is parsed and answered like any other — not dropped as a codec
error. -/
theorem c4_oversize_line_processed :
    1048576 < c4BigLine.length
    ∧ processLine true idleOracle c4BigLine
        = [send_response (cs "b") 0 (cs "\x7b\x7d") []] := by
  have hlen : c4BigLine.length = 1048576 + (serJson c4LineJson).length := by
    rw [show c4BigLine = List.replicate 1048576 ' ' ++ serJson c4LineJson from rfl,
      List.length_append, List.length_replicate]
  have hpos : 0 < (serJson c4LineJson).length := by decide
  constructor
  · omega
  · have hne : c4BigLine ≠ [] := by
      intro h
      have h0 : c4BigLine.length = 0 := by rw [h]; rfl
      omega
    have hwf : wfJson c4LineJson = true := by decide
    have hsz : jszJson c4LineJson ≤ c4BigLine.length + 1 := by
      have := jszJson_le_len c4LineJson
      omega
    have hpv : parseValue (c4BigLine.length + 1) c4BigLine = some (c4LineJson, []) := by
      show parseValue (c4BigLine.length + 1)
          (List.replicate 1048576 ' ' ++ serJson c4LineJson) = _
      rw [parseValue_pad]
      have hrt := (parse_ser_roundtrip (c4BigLine.length + 1)).1 c4LineJson [] hsz hwf
        (by decide)
      simpa using hrt
    have hparse : parseLine c4BigLine = some c4LineJson := parseLine_of_parseValue hpv
    have hne2 : serJson c4LineJson ≠ [] := by decide
    have hpl2 : parseLine (serJson c4LineJson) = some c4LineJson := by decide
    have hsmall : processLine true idleOracle (serJson c4LineJson)
        = [send_response (cs "b") 0 (cs "\x7b\x7d") []] := by decide
    rw [processLine_congr true idleOracle hne hne2 (by rw [hparse, hpl2]), hsmall]

/-! ### C5: the eval policy on the guest global object -/

/-- A guest global binding: the built-in `eval` or `Function`, a function or an
object installed by a worker shim, or anything else. -/
inductive GVal where
  | builtinEval
  | builtinFunction
  | shimFn
  | shimObj
  | other
deriving DecidableEq

/-- The guest global object as an association list; the most recent binding of
a name shadows older ones. -/
abbrev GlobalObj := List (List Char × GVal)

/-- Property definition or assignment on the global object. -/
def gset (g : GlobalObj) (k : List Char) (v : GVal) : GlobalObj := (k, v) :: g

/-- `JS_DeleteProperty` on the global object: every binding of the name goes. -/
def gdel (g : GlobalObj) (k : List Char) : GlobalObj :=
  List.filter (fun p => decide (p.1 ≠ k)) g

/-- Property lookup on the global object. -/
def glookup (g : GlobalObj) (k : List Char) : Option GVal :=
  match g with
  | [] => none
  | (k2, v) :: t => if k2 = k then some v else glookup t k

/-- What `typeof name` evaluates to in the guest. -/
def jsTypeof (g : GlobalObj) (k : List Char) : List Char :=
  match glookup g k with
  | none => cs "undefined"
  | some .builtinEval => cs "function"
  | some .builtinFunction => cs "function"
  | some .shimFn => cs "function"
  | some .shimObj => cs "object"
  | some .other => cs "object"

/-- The shim installation of `main` (main.c:987-993): the base64 polyfill
defines `btoa` and `atob`, the web APIs define `URL`, `URLSearchParams`,
`Response`, `Headers` and `Request`, and the console override defines
`__bunbase_log` and replaces `console`. -/
def installShims (g : GlobalObj) : GlobalObj :=
  gset (gset (gset (gset (gset (gset (gset (gset (gset g
    (cs "btoa") .shimFn) (cs "atob") .shimFn) (cs "URL") .shimFn)
    (cs "URLSearchParams") .shimFn) (cs "Response") .shimFn)
    (cs "Headers") .shimFn) (cs "Request") .shimFn)
    (cs "__bunbase_log") .shimFn) (cs "console") .shimObj

/-- main.c:996-1006: with `ALLOW_EVAL` unset the worker deletes the `eval` and
`Function` bindings from the global object; otherwise it leaves it alone. -/
def applyEvalPolicy (allow_eval : Bool) (g : GlobalObj) : GlobalObj :=
  if allow_eval then g else gdel (gdel g (cs "eval")) (cs "Function")

/-- The global object the bundle executes against (main.c:987-1009): the shims
are installed first, the eval policy is applied after all of them, and
`load_bundle` runs only afterwards. -/
def globalsAtBundleStart (allow_eval : Bool) (g0 : GlobalObj) : GlobalObj :=
  applyEvalPolicy allow_eval (installShims g0)

theorem glookup_gdel_self : ∀ (g : GlobalObj) (k : List Char), glookup (gdel g k) k = none
  | [], _ => rfl
  | (k2, v) :: t, k => by
    by_cases h : k2 = k
    · have hd : gdel ((k2, v) :: t) k = gdel t k := by
        simp [gdel, List.filter_cons, h]
      rw [hd, glookup_gdel_self t k]
    · have hd : gdel ((k2, v) :: t) k = (k2, v) :: gdel t k := by
        simp [gdel, List.filter_cons, h]
      rw [hd]
      simp [glookup, h, glookup_gdel_self t k]

theorem glookup_gdel_ne (k k2 : List Char) (h : k2 ≠ k) :
    ∀ g : GlobalObj, glookup (gdel g k) k2 = glookup g k2
  | [] => rfl
  | (k3, v) :: t => by
    by_cases h3 : k3 = k
    · have hd : gdel ((k3, v) :: t) k = gdel t k := by
        simp [gdel, List.filter_cons, h3]
      have hk32 : k3 ≠ k2 := by
        rw [h3]
        exact fun he => h he.symm
      rw [hd, glookup_gdel_ne k k2 h t]
      simp [glookup, hk32]
    · have hd : gdel ((k3, v) :: t) k = (k3, v) :: gdel t k := by
        simp [gdel, List.filter_cons, h3]
      rw [hd]
      by_cases h32 : k3 = k2
      · simp [glookup, h32]
      · simp [glookup, h32, glookup_gdel_ne k k2 h t]

/-- C5: with ALLOW_EVAL unset, `eval` and `Function` are deleted from the
guest global object after all shims are installed and before the bundle
executes: whatever the base global object, at bundle start `typeof eval` and
`typeof Function` are "undefined", while the shim bindings (here `atob`)
survive the deletion untouched. -/
theorem c5_eval_disabled (g0 : GlobalObj) :
    jsTypeof (globalsAtBundleStart false g0) (cs "eval") = cs "undefined"
    ∧ jsTypeof (globalsAtBundleStart false g0) (cs "Function") = cs "undefined"
    ∧ glookup (globalsAtBundleStart false g0) (cs "atob")
        = glookup (installShims g0) (cs "atob")
    ∧ glookup (installShims g0) (cs "atob") = some .shimFn := by
  refine ⟨?_, ?_, ?_, rfl⟩
  · show jsTypeof (gdel (gdel (installShims g0) (cs "eval")) (cs "Function")) (cs "eval")
        = cs "undefined"
    simp [jsTypeof, glookup_gdel_ne (cs "Function") (cs "eval") (by decide),
      glookup_gdel_self]
  · show jsTypeof (gdel (gdel (installShims g0) (cs "eval")) (cs "Function")) (cs "Function")
        = cs "undefined"
    simp [jsTypeof, glookup_gdel_self]
  · show glookup (gdel (gdel (installShims g0) (cs "eval")) (cs "Function")) (cs "atob")
        = glookup (installShims g0) (cs "atob")
    rw [glookup_gdel_ne (cs "Function") (cs "atob") (by decide),
      glookup_gdel_ne (cs "eval") (cs "atob") (by decide)]

/-! ### C6: handler resolution after module execution -/

/-- Shape of the bundle module namespace as the loader reads it: whether the
`default` export is a callable function, and whether the `handler` export is
(an absent export is undefined, which is not callable). -/
structure ModuleNS where
  defaultCallable : Bool
  handlerCallable : Bool
deriving DecidableEq

/-- Which export `load_bundle` retained as the handler. -/
inductive HandlerRef where
  | fromDefault
  | fromHandler
deriving DecidableEq

/-- Outcome of compiling, resolving, evaluating and awaiting the bundle module
(main.c:546-631): an exception at one of the steps, or the module namespace. -/
inductive BundleEval where
  | throw (msg : List Char)
  | ok (ns : ModuleNS)

/-- The export-resolution tail of `load_bundle` (main.c:633-662): prefer a
callable `default` export, then a callable `handler` export, else fail. -/
def resolveHandler (ns : ModuleNS) : Option HandlerRef :=
  if ns.defaultCallable then some .fromDefault
  else if ns.handlerCallable then some .fromHandler
  else none

/-- `load_bundle` (main.c:529-663): the retained handler, or the stderr
diagnostic of the failed step ("No handler function found" when both export
lookups fail). -/
def load_bundle (ev : BundleEval) : Except (List Char) HandlerRef :=
  match ev with
  | .throw m => .error m
  | .ok ns =>
    match resolveHandler ns with
    | some h => .ok h
    | none => .error (cs "No handler function found")

/-- The bundle-loading step of `main` (main.c:1009-1021): on failure emit the
error record with id "bundle-load" and code BUNDLE_LOAD_ERROR and exit with
status 1; on success retain the handler and emit the ready record. -/
def mainLoadStep (worker_id : List Char) (ev : BundleEval) :
    List Msg × Option HandlerRef × Option Int :=
  match load_bundle ev with
  | .ok h => ([send_ready worker_id], some h, none)
  | .error _ =>
    ([send_error (cs "bundle-load") (cs "Failed to load bundle")
        (cs "BUNDLE_LOAD_ERROR")], none, some 1)

/-- C6: for every module namespace shape, the loader retains the `default`
export when it is callable, else the `handler` export when that is callable,
and otherwise — as after any module-evaluation exception — emits the error
record with id "bundle-load" and code BUNDLE_LOAD_ERROR and exits with
status 1. -/
theorem c6_handler_resolution (w : List Char) (d h : Bool) (m : List Char) :
    mainLoadStep w (.ok ⟨d, h⟩)
      = (if d then ([send_ready w], some .fromDefault, none)
         else if h then ([send_ready w], some .fromHandler, none)
         else ([send_error (cs "bundle-load") (cs "Failed to load bundle")
                  (cs "BUNDLE_LOAD_ERROR")], none, some (1 : Int)))
    ∧ mainLoadStep w (.throw m)
      = ([send_error (cs "bundle-load") (cs "Failed to load bundle")
            (cs "BUNDLE_LOAD_ERROR")], none, some 1) := by
  constructor
  · cases d <;> cases h <;> rfl
  · rfl

end QjsWorker
